import Mathlib

/-!
# Verification of the texttable in-memory tabular data engine

This file gives a shallow embedding, in Lean 4, of the core of the
`texttable` repository — the delimited-text parser (`src/utils/parser.py`),
the table store (`src/model/table_model.py`, class `TextTableModel`), the
filter/sort view layer (`src/model/proxy_filter.py`, class
`FilterProxyModel`), and the dedup/group algorithms
(`src/app/main_window.py`, `src/features/dedup_group.py`) — and proves or
refutes the specification's claims about them.

Python strings are modelled as `List Char` (a Python `str` is a sequence of
code points).  Python's `str.strip` / `str.lower` and the whitespace set are
modelled over the common ASCII whitespace characters; all concrete inputs
used in examples stay inside that fragment.
-/

namespace TextTable

/-- The whitespace characters recognised by the model of Python's
`str.strip` (the ASCII fragment of Python's definition: space, tab,
newline, carriage return, vertical tab, form feed). -/
def pyIsSpace (c : Char) : Bool :=
  c = ' ' ∨ c = '\t' ∨ c = '\n' ∨ c = '\r' ∨ c = '\x0b' ∨ c = '\x0c'

/-- Model of Python `str.strip()`: drop leading and trailing whitespace. -/
def pyStrip (s : List Char) : List Char :=
  ((s.dropWhile pyIsSpace).reverse.dropWhile pyIsSpace).reverse

/-- Model of Python `str.lower()` (ASCII fragment). -/
def pyLower (s : List Char) : List Char :=
  s.map Char.toLower

/-- Model of the Python substring test `needle in haystack`. -/
def pyContains : List Char → List Char → Bool
  | hay, nd =>
    if nd.isPrefixOf hay then true
    else
      match hay with
      | [] => false
      | _ :: t => pyContains t nd

/-- Cons a character onto the first segment of a split result
(used when a character is not part of any separator occurrence). -/
def consHead (c : Char) : List (List Char) → List (List Char)
  | [] => [[c]]
  | l :: ls => (c :: l) :: ls

/-- Fuel-driven worker for `pySplit`.  Scans left to right; at each
position, if the separator is a prefix it is consumed and a new segment is
started, otherwise one character is moved into the current segment.  The
fuel only needs to be at least the length of the input. -/
def pySplitGo (sep : List Char) : Nat → List Char → List (List Char)
  | 0, s => [s]
  | fuel + 1, s =>
    if sep.isPrefixOf s ∧ sep ≠ [] then
      [] :: pySplitGo sep fuel (s.drop sep.length)
    else
      match s with
      | [] => [[]]
      | c :: rest => consHead c (pySplitGo sep fuel rest)

/-- Model of Python `s.split(sep)` for a non-empty literal separator
(leftmost, non-overlapping occurrences; `"----".split("--") = ["","",""]`).
Python raises `ValueError` on an empty separator; here an empty separator
returns `[s]`, and every theorem that depends on splitting assumes the
separator is non-empty. -/
def pySplit (s sep : List Char) : List (List Char) :=
  pySplitGo sep (s.length + 1) s

/-- Model of Python `str.splitlines()` restricted to the line boundaries
`\r\n`, `\r` and `\n` (the ones produced and consumed by this program).
`"".splitlines() = []`, and a trailing terminator produces no empty last
line. -/
def pySplitlines : List Char → List (List Char)
  | [] => []
  | '\r' :: '\n' :: rest => [] :: pySplitlines rest
  | '\r' :: rest => [] :: pySplitlines rest
  | '\n' :: rest => [] :: pySplitlines rest
  | c :: rest => consHead c (pySplitlines rest)

/-- Model of Python `sep.join(parts)`. -/
def pyJoin (sep : List Char) : List (List Char) → List Char
  | [] => []
  | [x] => x
  | x :: xs => x ++ sep ++ pyJoin sep xs

/-- Python's `str(n)` for a natural number. -/
def natToChars (n : Nat) : List Char :=
  Nat.toDigits 10 n

/-- Case-sensitive lexicographic comparison of two strings by code point —
the comparison performed by Python's `<` on `str` and by Qt's `QString`
comparison. -/
def lexLt : List Char → List Char → Bool
  | [], [] => false
  | [], _ :: _ => true
  | _ :: _, [] => false
  | a :: as, b :: bs =>
    if a < b then true
    else if b < a then false
    else lexLt as bs

/-- Stable insertion of `x` into `l` with respect to the strict comparator
`lt`: `x` is placed before the first element strictly greater than it, so
elements comparing equal keep their original relative order. -/
def insertLt (lt : α → α → Bool) (x : α) : List α → List α
  | [] => [x]
  | y :: ys => if lt x y then x :: y :: ys else y :: insertLt lt x ys

/-- Stable sort by a strict comparator (the guarantee of Python's
`list.sort` and of Qt's proxy-model sorting). -/
def pySortBy (lt : α → α → Bool) (l : List α) : List α :=
  l.foldl (fun acc x => insertLt lt x acc) []

/-- Ascending stable sort of naturals (Python `sorted` on ints). -/
def pySortNat (l : List Nat) : List Nat :=
  pySortBy (fun a b => a < b) l

/-! ## Parser (`src/utils/parser.py`) -/

/-- Embeds `parse_text(text, delimiter)` from `src/utils/parser.py`: split the
text into lines, drop lines that are blank after stripping, split each
remaining line on the literal delimiter and strip each field, then pad
every row with empty fields up to the maximum field count; if no line
survives, return the empty table. -/
def parse_text (text : List Char) (delimiter : List Char) : List (List (List Char)) :=
  let rows := (pySplitlines text).filterMap fun raw_line =>
    let line := pyStrip raw_line
    if line = [] then none
    else some ((pySplit line delimiter).map pyStrip)
  let max_cols := rows.foldl (fun m r => max m r.length) 0
  if max_cols = 0 then []
  else rows.map fun r => r ++ List.replicate (max_cols - r.length) []

/-- Embeds `rows_to_text(rows, delimiter)` from `src/utils/parser.py`. -/
def rows_to_text (rows : List (List (List Char))) (delimiter : List Char) : List Char :=
  pyJoin ['\n'] (rows.map (pyJoin delimiter))

/-! ## Table store (`src/model/table_model.py`, class `TextTableModel`)

Cells are text; a table holds the header list, the row grid, and the
parallel list of stable row identifiers.  Column indices are modelled as
`Nat` (the Python methods guard `0 <= column`, which is vacuous here), and
out-of-range list accesses that would raise `IndexError` in Python are
modelled with `getD`/`eraseIdx` defaults; every call site in the program
stays in range, and no theorem below relies on the out-of-range defaults.
-/

/-- A table cell: one text value. -/
abbrev Cell := List Char

/-- A table row: one cell per column. -/
abbrev Row := List Cell

/-- State of `TextTableModel`: headers, row grid, and per-row identifiers. -/
structure TextTableModel where
  headers : List Cell
  data : List Row
  row_ids : List Nat
  deriving DecidableEq, Repr

/-- The model with no data loaded. -/
def emptyModel : TextTableModel := ⟨[], [], []⟩

/-- Worker of `TextTableModel._normalize_data`: returns the rows padded to
the maximum width together with that width (`max_cols`); when the maximum
width is zero the rows are returned unchanged.  The Python version also
coerces each cell with `str` (`None` becomes `""`); cells are already text
here. -/
def normalize_data (data : List Row) : List Row × Nat :=
  let max_cols := data.foldl (fun m r => max m r.length) 0
  if max_cols = 0 then (data, 0)
  else (data.map fun row => row ++ List.replicate (max_cols - row.length) [], max_cols)

/-- Embeds `TextTableModel.set_data`: normalize the rows, take the supplied
headers when the supplied list is non-empty (Python truthiness of
`if headers:`), otherwise synthesize `"列 N"` names sized to the data
width, and reset the identifiers to `1..N`. -/
def set_data (m : TextTableModel) (data : List Row) (headers : Option (List Cell)) :
    TextTableModel :=
  let normalized := (normalize_data data).1
  let header_count := (normalize_data data).2
  let synth := (List.range header_count).map fun i => "列 ".data ++ natToChars (i + 1)
  { m with
    headers :=
      match headers with
      | some hs => if hs = [] then (if 0 < header_count then synth else []) else hs
      | none => if 0 < header_count then synth else []
    data := normalized
    row_ids := (List.range normalized.length).map (· + 1) }

/-- Embeds `TextTableModel.set_headers`: replaces the header list, no data
effect. -/
def set_headers (m : TextTableModel) (headers : List Cell) : TextTableModel :=
  { m with headers := headers }

/-- Embeds `TextTableModel.rename_column`. -/
def rename_column (m : TextTableModel) (column : Nat) (name : Cell) : TextTableModel :=
  if column < m.headers.length then { m with headers := m.headers.set column name }
  else m

/-- Embeds `TextTableModel.reorder_columns`: a no-op unless `order` is a
permutation of `0..columnCount-1` (the source compares `sorted(order)`
with `range(len(headers))`). -/
def reorder_columns (m : TextTableModel) (order : List Nat) : TextTableModel :=
  if order = [] then m
  else if pySortNat order ≠ List.range m.headers.length then m
  else
    { m with
      headers := order.map fun i => m.headers.getD i []
      data := m.data.map fun row => order.map fun i => row.getD i [] }

/-- Embeds `TextTableModel.remove_rows`: for each index in the given
order, if it is in range of the current (already shrunken) data, delete
that row and its identifier. -/
def remove_rows (m : TextTableModel) (rows : List Nat) : TextTableModel :=
  rows.foldl
    (fun acc row =>
      if row < acc.data.length then
        { acc with data := acc.data.eraseIdx row, row_ids := acc.row_ids.eraseIdx row }
      else acc)
    m

/-- Embeds `TextTableModel.insert_columns`: `columns_data` is column-major;
the insertion index is clamped into `[0, columnCount]`. -/
def insert_columns (m : TextTableModel) (index : Nat) (headers : List Cell)
    (columns_data : List (List Cell)) : TextTableModel :=
  if headers = [] then m
  else
    let idx := min index m.headers.length
    { m with
      data := m.data.mapIdx fun row_index row =>
        let insert_values := (List.range headers.length).map fun col_index =>
          (columns_data.getD col_index []).getD row_index []
        row.take idx ++ insert_values ++ row.drop idx
      headers := m.headers.take idx ++ headers ++ m.headers.drop idx }

/-- Embeds `TextTableModel.remove_columns`: processes the requested columns
in descending order, skipping the ones out of range of the current header
list. -/
def remove_columns (m : TextTableModel) (columns : List Nat) : TextTableModel :=
  if columns = [] then m
  else
    ((pySortNat columns).reverse).foldl
      (fun acc column =>
        if column < acc.headers.length then
          { acc with
            data := acc.data.map fun row => row.eraseIdx column
            headers := acc.headers.eraseIdx column }
        else acc)
      m

/-- Embeds `TextTableModel.split_column`: split the column's text per row
on the literal delimiter, compute the maximum part count, and either
insert all the part columns after the original (`keep_original`) or
replace the original column with part 1 and insert parts 2..max after it.
A no-op when the maximum part count is ≤ 1 or the column is out of
range. -/
def split_column (m : TextTableModel) (column : Nat) (delimiter : List Char)
    (keep_original : Bool) : TextTableModel :=
  if column < m.headers.length then
    let parts_per_row := m.data.map fun row => pySplit (row.getD column []) delimiter
    let max_parts := parts_per_row.foldl (fun acc p => max acc p.length) 0
    if max_parts ≤ 1 then m
    else
      let new_headers := (List.range max_parts).map fun i =>
        m.headers.getD column [] ++ " 部分 ".data ++ natToChars (i + 1)
      let new_columns_data := (List.range max_parts).map fun idx =>
        parts_per_row.map fun parts =>
          (parts ++ List.replicate (max_parts - parts.length) []).getD idx []
      if keep_original then insert_columns m (column + 1) new_headers new_columns_data
      else
        { m with
          data := m.data.mapIdx fun row_index row =>
            let row' := row.set column ((new_columns_data.getD 0 []).getD row_index [])
            row'.take (column + 1)
              ++ (new_columns_data.drop 1).map (fun col => col.getD row_index [])
              ++ row'.drop (column + 1)
          headers := m.headers.take column ++ new_headers ++ m.headers.drop (column + 1) }
  else m

/-- Embeds `TextTableModel.merge_columns`: requires at least two columns,
all in range; joins the selected columns' values per row with the
delimiter and either inserts the merged column after the last selected
one (`keep_originals`) or replaces the first selected column and deletes
the rest. -/
def merge_columns (m : TextTableModel) (columns : List Nat) (delimiter : List Char)
    (keep_originals : Bool) : TextTableModel :=
  if columns.length < 2 then m
  else
    let cols := pySortNat columns
    if m.headers.length ≤ cols.getLastD 0 then m
    else
      let merged_values := m.data.map fun row => pyJoin delimiter (cols.map fun i => row.getD i [])
      let merged_header := "合并".data
      let insert_at := cols.getLastD 0 + 1
      if keep_originals then insert_columns m insert_at [merged_header] [merged_values]
      else
        { m with
          data := m.data.mapIdx fun row_index row =>
            let row' := row.set (cols.getD 0 0) (merged_values.getD row_index [])
            (cols.drop 1).reverse.foldl (fun r c => r.eraseIdx c) row'
          headers :=
            (cols.drop 1).reverse.foldl (fun hs c => hs.eraseIdx c)
              (m.headers.set (cols.getD 0 0) merged_header) }

/-- Embeds `TextTableModel.setData` for an edit of the cell at view column
`col` (view column 0 is the identifier pseudo-column and is rejected; data
column is `col - 1`). -/
def set_cell (m : TextTableModel) (row col : Nat) (value : Cell) : TextTableModel :=
  if row < m.data.length ∧ col ≠ 0 ∧ col - 1 < m.headers.length then
    { m with data := m.data.set row ((m.data.getD row []).set (col - 1) value) }
  else m

/-- Embeds `TextTableModel.sort`: stable sort of the `(identifier, row)`
pairs; view column 0 sorts by the numeric identifier (the source renders
each identifier with `str` and reparses it with `int`, which on the digit
strings produced is the identifier itself), any other view column sorts by
that data column's text with Python's plain string comparison, rows
shorter than the column sorting as `""`.  `reverse` gives the stable
descending order of Python's `sort(..., reverse=True)`. -/
def sortModel (m : TextTableModel) (column : Nat) (reverse : Bool) : TextTableModel :=
  if m.data = [] then m
  else
    let combined := m.row_ids.zip m.data
    let sorted :=
      if column = 0 then
        pySortBy (fun a b => if reverse then b.1 < a.1 else a.1 < b.1) combined
      else
        let data_col := column - 1
        let key := fun (item : Nat × Row) => item.2.getD data_col []
        pySortBy (fun a b => if reverse then lexLt (key b) (key a) else lexLt (key a) (key b))
          combined
    { m with row_ids := sorted.map (·.1), data := sorted.map (·.2) }

/-! ## Filter/view layer (`src/model/proxy_filter.py`, class `FilterProxyModel`)

The regex mode delegates to Python's `re.search(needle, haystack,
re.IGNORECASE)` with `re.error` handled by returning `False`; it is
modelled by an explicit function parameter `regexMatch : needle → haystack
→ Bool` threaded through the predicates (none of the claims depends on
regex semantics). -/

/-- A filter rule: target column (`none` is the "all columns" sentinel; a
specific index is a Python `int` and may be negative or out of range),
match mode string, and match value. -/
structure FilterRule where
  column : Option Int
  mode : List Char
  value : List Char
  deriving DecidableEq, Repr

/-- Embeds `FilterProxyModel._match_value`: mode dispatch over one cell's
text; all non-regex modes compare case-insensitively; an unknown mode
matches nothing. -/
def matchValue (regexMatch : List Char → List Char → Bool) (value : Cell)
    (rule : FilterRule) : Bool :=
  if rule.mode = "Regex".data then regexMatch rule.value value
  else
    let haystack_lower := pyLower value
    let needle_lower := pyLower rule.value
    if rule.mode = "Contains".data then pyContains haystack_lower needle_lower
    else if rule.mode = "Not contains".data then !(pyContains haystack_lower needle_lower)
    else if rule.mode = "Equals".data then decide (haystack_lower = needle_lower)
    else if rule.mode = "Starts with".data then needle_lower.isPrefixOf haystack_lower
    else if rule.mode = "Ends with".data then needle_lower.isSuffixOf haystack_lower
    else false

/-- Embeds `FilterProxyModel._apply_rule_all_columns`: mode
`"Not contains"` requires every column to not contain the value; every
other mode requires some column to match. -/
def applyRuleAllColumns (regexMatch : List Char → List Char → Bool) (rule : FilterRule)
    (row_values : List Cell) : Bool :=
  if rule.mode = "Not contains".data then
    row_values.all fun value => !(pyContains (pyLower value) (pyLower rule.value))
  else
    row_values.any fun value => matchValue regexMatch value rule

/-- Embeds `FilterProxyModel._apply_rule`: the "all columns" sentinel
delegates to `applyRuleAllColumns`; a specific column index out of range
(negative or `≥` the column count) rejects the row. -/
def applyRule (regexMatch : List Char → List Char → Bool) (rule : FilterRule)
    (row_values : List Cell) : Bool :=
  match rule.column with
  | none => applyRuleAllColumns regexMatch rule row_values
  | some c =>
    if c < 0 ∨ (row_values.length : Int) ≤ c then false
    else matchValue regexMatch (row_values.getD c.toNat []) rule

/-- Embeds `FilterProxyModel.filterAcceptsRow` over the materialized data
column values of one row (`row_values` has one entry per data column, so
it is empty exactly when the guard `columnCount() - 1 <= 0` fires and the
row is rejected).  A non-empty global filter must match some column
case-insensitively, then every rule must accept, in list order. -/
def filterAcceptsRow (regexMatch : List Char → List Char → Bool) (global_filter : List Char)
    (rules : List FilterRule) (row_values : List Cell) : Bool :=
  if row_values.length = 0 then false
  else
    (if global_filter ≠ [] then
      row_values.any fun value => pyContains (pyLower value) (pyLower global_filter)
     else true)
    && rules.all fun rule => applyRule regexMatch rule row_values

/-- Embeds the identifier-column case of `FilterProxyModel.lessThan`
(`left.column() == 0 and right.column() == 0`): the source renders the two
row identifiers with `str` and compares `int(...) < int(...)`, which on
those digit strings is numeric comparison of the identifiers. -/
def lessThanIdColumn (l r : Nat) : Bool :=
  l < r

/-- Embeds the data-column fall-through of `FilterProxyModel.lessThan`
(no whole-row sort active): `return super().lessThan(left, right)`, which
with `QSortFilterProxyModel`'s default settings (case-sensitive, not
locale-aware) compares the two cells' display strings by plain
code-point-lexicographic string comparison. -/
def lessThanDataColumn (l r : Cell) : Bool :=
  lexLt l r

/-- Modelled from the spec (§4.3 sort comparator), for comparison with the
code: the numeric-prefix-aware comparator — extract a leading run of
decimal digits after leading whitespace from each value; if both have one,
compare numerically with full-text lexicographic tie-break; if exactly one
has one, it sorts first; otherwise plain lexicographic. -/
def specNumericPrefixLess (l r : Cell) : Bool :=
  let dl := (l.dropWhile pyIsSpace).takeWhile Char.isDigit
  let dr := (r.dropWhile pyIsSpace).takeWhile Char.isDigit
  let numL := dl.foldl (fun a c => a * 10 + (c.toNat - '0'.toNat)) 0
  let numR := dr.foldl (fun a c => a * 10 + (c.toNat - '0'.toNat)) 0
  if dl ≠ [] ∧ dr ≠ [] then
    if numL ≠ numR then numL < numR else lexLt l r
  else if dl ≠ [] then true
  else if dr ≠ [] then false
  else lexLt l r

/-! ## Dedup and grouping (`src/app/main_window.py`, `src/features/dedup_group.py`) -/

/-- The dedup/group key of a row: the tuple of its values at the key
columns (`tuple(row[i] for i in columns)`). -/
def dedupKey (columns : List Nat) (row : Row) : List Cell :=
  columns.map fun i => row.getD i []

/-- One-pass seen-set scan of the `preview` closure in
`MainWindow._open_dedup`: counts the keys already seen. -/
def seenCountGo : List (List Cell) → List (List Cell) → Nat
  | _, [] => 0
  | seen, k :: rest =>
    if k ∈ seen then 1 + seenCountGo seen rest
    else seenCountGo (k :: seen) rest

/-- Embeds the `preview` closure of `MainWindow._open_dedup`: the number
of rows a dedup would remove, scanning the key list in natural order for
keep-first and in reverse order for keep-last, without mutating state. -/
def dedup_preview (data : List Row) (columns : List Nat) (keep_last : Bool) : Nat :=
  let keys := data.map (dedupKey columns)
  seenCountGo [] (if keep_last then keys.reverse else keys)

/-- Keep-first seen-set scan of the commit loop in
`MainWindow._open_dedup`: keeps each row whose key has not been seen
yet. -/
def keepFirstGo (columns : List Nat) : List (List Cell) → List Row → List Row
  | _, [] => []
  | seen, row :: rest =>
    if dedupKey columns row ∈ seen then keepFirstGo columns seen rest
    else row :: keepFirstGo columns (dedupKey columns row :: seen) rest

/-- The result rows of the commit part of `MainWindow._open_dedup`:
keep-first scans forward; keep-last scans the rows in reverse and reverses
the result back. -/
def dedup_rows (data : List Row) (columns : List Nat) (keep_last : Bool) : List Row :=
  if keep_last then (keepFirstGo columns [] data.reverse).reverse
  else keepFirstGo columns [] data

/-- Embeds the commit path of `MainWindow._open_dedup` on the table store:
with no key column selected the commit returns before mutating anything;
otherwise the deduplicated rows replace the table via `set_data` with the
current headers. -/
def openDedupCommit (m : TextTableModel) (columns : List Nat) (keep_last : Bool) :
    TextTableModel :=
  if columns = [] then m
  else set_data m (dedup_rows m.data columns keep_last) (some m.headers)

/-- One `counter[key] += 1` step on an insertion-ordered counter (Python
`collections.Counter` is a dict: a key's position is where it was first
inserted). -/
def counterAdd : List (List Cell × Nat) → List Cell → List (List Cell × Nat)
  | [], k => [(k, 1)]
  | (k', c) :: rest, k =>
    if k' = k then (k', c + 1) :: rest
    else (k', c) :: counterAdd rest k

/-- Core of `GroupDialog._apply_grouping`: count occurrences of each key
tuple with an insertion-ordered counter, then emit one row per key holding
the key values followed by the rendered count. -/
def groupRows (data : List Row) (columns : List Nat) : List Row :=
  let counter := data.foldl (fun acc row => counterAdd acc (dedupKey columns row)) []
  counter.map fun kc => kc.1 ++ [natToChars kc.2]

/-- Embeds `GroupDialog._apply_grouping` including its guard: with no key
column checked nothing is produced. -/
def applyGrouping (data : List Row) (columns : List Nat) : Option (List Row) :=
  if columns = [] then none else some (groupRows data columns)

/-! ## Application-level split (`MainWindow._apply_split_operation`) -/

/-- Embeds `MainWindow._apply_split_operation`: working on a copy of the
grid and headers, processes the selected columns in ascending order with a
running offset; rows outside the scope contribute no parts (an empty part
list, padding to empty text in every new column); finally the transformed
grid and headers are written back through `set_data`. -/
def applySplitOperation (m : TextTableModel) (rows_in_scope : List Nat)
    (columns : List Nat) (delimiter : List Char) (keep_original : Bool) :
    TextTableModel :=
  let step := fun (state : List Row × List Cell × Nat) (col : Nat) =>
    let data := state.1
    let headers := state.2.1
    let offset := state.2.2
    let adjusted_col := col + offset
    let per_row_parts := data.mapIdx fun row_index row =>
      if row_index ∈ rows_in_scope then pySplit (row.getD adjusted_col []) delimiter
      else []
    let max_parts := per_row_parts.foldl (fun acc p => max acc p.length) 0
    if max_parts ≤ 1 then (data, headers, offset)
    else
      let new_headers := (List.range max_parts).map fun i =>
        headers.getD adjusted_col [] ++ " 部分 ".data ++ natToChars (i + 1)
      let new_columns := (List.range max_parts).map fun i =>
        per_row_parts.map fun parts =>
          (parts ++ List.replicate (max_parts - parts.length) []).getD i []
      if keep_original then
        (data.mapIdx fun row_index row =>
            row.take (adjusted_col + 1)
              ++ new_columns.map (fun col' => col'.getD row_index [])
              ++ row.drop (adjusted_col + 1),
         headers.take (adjusted_col + 1) ++ new_headers ++ headers.drop (adjusted_col + 1),
         offset + max_parts)
      else
        (data.mapIdx fun row_index row =>
            let row' :=
              if row_index ∈ rows_in_scope then
                row.set adjusted_col ((new_columns.getD 0 []).getD row_index [])
              else row
            row'.take (adjusted_col + 1)
              ++ (new_columns.drop 1).map (fun col' => col'.getD row_index [])
              ++ row'.drop (adjusted_col + 1),
         headers.take adjusted_col ++ new_headers ++ headers.drop (adjusted_col + 1),
         offset + (max_parts - 1))
  let final := (pySortNat columns).foldl step (m.data, m.headers, 0)
  set_data m final.1 (some final.2.1)

/-! ## Filter-layer theorems (claims C10, C4, C3) -/

theorem all_congr_mem {f g : α → Bool} {l : List α} (h : ∀ x ∈ l, f x = g x) :
    l.all f = l.all g := by
  induction l with
  | nil => rfl
  | cons x xs ih => simp_all

theorem matchValue_regex_irrel (rm₁ rm₂ : List Char → List Char → Bool) (value : Cell)
    (rule : FilterRule) (h : rule.mode ≠ "Regex".data) :
    matchValue rm₁ value rule = matchValue rm₂ value rule := by
  unfold matchValue
  rw [if_neg h, if_neg h]

theorem applyRule_regex_irrel (rm₁ rm₂ : List Char → List Char → Bool) (rule : FilterRule)
    (row_values : List Cell) (h : rule.mode ≠ "Regex".data) :
    applyRule rm₁ rule row_values = applyRule rm₂ rule row_values := by
  unfold applyRule
  have hmv : (fun v => matchValue rm₁ v rule) = fun v => matchValue rm₂ v rule :=
    funext fun v => matchValue_regex_irrel rm₁ rm₂ v rule h
  cases rule.column with
  | none =>
    dsimp only
    unfold applyRuleAllColumns
    rw [hmv]
  | some c =>
    dsimp only
    rw [matchValue_regex_irrel rm₁ rm₂ _ rule h]

theorem filterAcceptsRow_regex_irrel (rm₁ rm₂ : List Char → List Char → Bool)
    (global_filter : List Char) (rules : List FilterRule) (row_values : List Cell)
    (h : ∀ r ∈ rules, r.mode ≠ "Regex".data) :
    filterAcceptsRow rm₁ global_filter rules row_values
      = filterAcceptsRow rm₂ global_filter rules row_values := by
  unfold filterAcceptsRow
  rw [all_congr_mem fun r hr => applyRule_regex_irrel rm₁ rm₂ r row_values (h r hr)]

theorem applyRule_out_of_range (regexMatch : List Char → List Char → Bool)
    (rule : FilterRule) (row_values : List Cell) (c : Int)
    (hc : rule.column = some c) (h : c < 0 ∨ (row_values.length : Int) ≤ c) :
    applyRule regexMatch rule row_values = false := by
  unfold applyRule
  rw [hc]
  simp only [if_pos h]

theorem filterAcceptsRow_false_of_rule_false (regexMatch : List Char → List Char → Bool)
    (global_filter : List Char) (rules : List FilterRule) (row_values : List Cell)
    (rule : FilterRule) (hmem : rule ∈ rules)
    (hrule : applyRule regexMatch rule row_values = false) :
    filterAcceptsRow regexMatch global_filter rules row_values = false := by
  unfold filterAcceptsRow
  split
  · rfl
  · have hall : (rules.all fun r => applyRule regexMatch r row_values) = false := by
      rcases h : rules.all fun r => applyRule regexMatch r row_values with _ | _
      · rfl
      · exact absurd (List.all_eq_true.mp h rule hmem) (by simp [hrule])
    rw [hall, Bool.and_false]

/-- Claim C10: a filter rule targeting a specific column index outside the
row's column range (negative or at least the column count) rejects the
row, so a filter set containing such a stale rule makes every row
invisible rather than the rule being ignored. -/
theorem claim10_stale_rule_rejects_all (regexMatch : List Char → List Char → Bool)
    (global_filter : List Char) (rules : List FilterRule) (row_values : List Cell)
    (rule : FilterRule) (c : Int) (hmem : rule ∈ rules) (hc : rule.column = some c)
    (hout : c < 0 ∨ (row_values.length : Int) ≤ c) :
    filterAcceptsRow regexMatch global_filter rules row_values = false :=
  filterAcceptsRow_false_of_rule_false regexMatch global_filter rules row_values rule hmem
    (applyRule_out_of_range regexMatch rule row_values c hc hout)

/-- Witness for claim C10 at a concrete stale rule (column 5 of a
2-column row) and a concrete negative-column rule. -/
theorem claim10_witness :
    filterAcceptsRow (fun _ _ => false) []
      [⟨some 5, "Contains".data, [] ⟩] ["a".data, "b".data] = false
    ∧ filterAcceptsRow (fun _ _ => true) "a".data
      [⟨some (-1), "Contains".data, "a".data⟩] ["a".data] = false := by
  constructor
  · exact claim10_stale_rule_rejects_all (fun _ _ => false) []
      [⟨some 5, "Contains".data, [] ⟩] ["a".data, "b".data]
      ⟨some 5, "Contains".data, [] ⟩ 5 (by decide) rfl (by decide)
  · exact claim10_stale_rule_rejects_all (fun _ _ => true) "a".data
      [⟨some (-1), "Contains".data, "a".data⟩] ["a".data]
      ⟨some (-1), "Contains".data, "a".data⟩ (-1) (by decide) rfl (by decide)

/-- Claim C4: a row with at least one column is accepted iff the global
filter (when non-empty) matches some column case-insensitively and every
rule in the list accepts the row (rules are AND-ed); a rule targeting all
columns with mode "Not contains" accepts exactly when every column does
not contain the value; and the concrete row `["y-has-x", "zzz"]` passing
global filter `"x"` is still rejected by the rule
`{column 0, Not contains, "y"}`. -/
theorem claim4_acceptance (regexMatch : List Char → List Char → Bool)
    (global_filter : List Char) (rules : List FilterRule) (row_values : List Cell)
    (hne : row_values ≠ []) :
    (filterAcceptsRow regexMatch global_filter rules row_values = true ↔
      (global_filter ≠ [] →
        ∃ v ∈ row_values, pyContains (pyLower v) (pyLower global_filter) = true)
      ∧ ∀ r ∈ rules, applyRule regexMatch r row_values = true)
    ∧ (∀ rule : FilterRule, rule.column = none → rule.mode = "Not contains".data →
        (applyRule regexMatch rule row_values = true ↔
          ∀ v ∈ row_values, pyContains (pyLower v) (pyLower rule.value) = false))
    ∧ filterAcceptsRow regexMatch "x".data
        [⟨some 0, "Not contains".data, "y".data⟩]
        ["y-has-x".data, "zzz".data] = false := by
  refine ⟨?_, ?_, ?_⟩
  · unfold filterAcceptsRow
    rw [if_neg (by simpa using hne)]
    by_cases hg : global_filter = []
    · simp [hg, List.all_eq_true]
    · simp [hg, List.all_eq_true, List.any_eq_true]
  · intro rule hcol hmode
    unfold applyRule
    rw [hcol]
    unfold applyRuleAllColumns
    rw [if_pos hmode]
    simp [List.all_eq_true]
  · rw [filterAcceptsRow_regex_irrel regexMatch (fun _ _ => false) _ _ _ (by decide)]
    decide

/-- Witness for claim C4 at the spec's concrete example. -/
theorem claim4_witness :
    (["y-has-x".data, "zzz".data] : List Cell) ≠ []
    ∧ filterAcceptsRow (fun _ _ => false) "x".data
        [⟨some 0, "Not contains".data, "y".data⟩]
        ["y-has-x".data, "zzz".data] = false :=
  ⟨by decide,
   (claim4_acceptance (fun _ _ => false) "x".data
      [⟨some 0, "Not contains".data, "y".data⟩]
      ["y-has-x".data, "zzz".data] (by decide)).2.2⟩

/-- Counterexample to claim C3: the view-layer comparator for data
columns is the Qt default — plain lexicographic string comparison — not
numeric-prefix-aware: it puts `"10"` before `"2"` although both have
numeric prefixes and 10 is not numerically less than 2 (the spec-modelled
numeric-prefix comparator disagrees on this pair), and the claimed sorted
order of `["10","2","abc","1a"]` is not produced. -/
theorem claim3_counterexample :
    lessThanDataColumn "10".data "2".data = true
    ∧ specNumericPrefixLess "10".data "2".data = false
    ∧ pySortBy lessThanDataColumn ["10".data, "2".data, "abc".data, "1a".data]
        ≠ ["2".data, "10".data, "1a".data, "abc".data] := by
  decide

/-- Claim C3 (amended): sorting a data column in the view layer compares
cell texts with plain case-sensitive lexicographic string comparison (the
`QSortFilterProxyModel` default reached by the `lessThan` fall-through),
with no numeric-prefix awareness, so `["10","2","abc","1a"]` sorts
ascending to `["10","1a","2","abc"]`; the spec's own numeric-prefix-aware
comparator would instead give `["1a","2","10","abc"]` (and neither yields
the spec's claimed `["2","10","1a","abc"]`). -/
theorem claim3_amended :
    pySortBy lessThanDataColumn ["10".data, "2".data, "abc".data, "1a".data]
        = ["10".data, "1a".data, "2".data, "abc".data]
    ∧ pySortBy specNumericPrefixLess ["10".data, "2".data, "abc".data, "1a".data]
        = ["1a".data, "2".data, "10".data, "abc".data] := by
  decide

/-! ## Dedup theorems (claim C7) -/

theorem seenCount_keepFirst (columns : List Nat) :
    ∀ (rows : List Row) (seen : List (List Cell)),
      seenCountGo seen (rows.map (dedupKey columns))
        + (keepFirstGo columns seen rows).length = rows.length := by
  intro rows
  induction rows with
  | nil => intro seen; rfl
  | cons row rest ih =>
    intro seen
    simp only [List.map_cons, seenCountGo, keepFirstGo]
    by_cases hmem : dedupKey columns row ∈ seen
    · rw [if_pos hmem, if_pos hmem]
      have := ih seen
      simp only [List.length_cons]
      omega
    · rw [if_neg hmem, if_neg hmem]
      have := ih (dedupKey columns row :: seen)
      simp only [List.length_cons]
      omega

theorem length_normalize (data : List Row) : (normalize_data data).1.length = data.length := by
  simp only [normalize_data]
  split
  · rfl
  · simp

theorem set_data_data_length (m : TextTableModel) (data : List Row)
    (headers : Option (List Cell)) :
    (set_data m data headers).data.length = data.length :=
  length_normalize data

/-- Claim C7 (amended): for every table, every *non-empty* key-column
set, and either keep-policy, the dedup preview count plus the number of
rows surviving the commit equals the row count — i.e. the preview count
equals exactly the number of rows the commit removes.  (With an empty
key-column set the commit path returns without mutating anything while
the preview still reports `rowCount - 1` duplicates, so the claim needs
the non-emptiness restriction.) -/
theorem claim7_preview_eq_removed (m : TextTableModel) (columns : List Nat)
    (keep_last : Bool) (h : columns ≠ []) :
    dedup_preview m.data columns keep_last
        + (openDedupCommit m columns keep_last).data.length = m.data.length
    ∧ dedup_preview m.data columns keep_last
        = m.data.length - (openDedupCommit m columns keep_last).data.length := by
  have hmain : dedup_preview m.data columns keep_last
      + (openDedupCommit m columns keep_last).data.length = m.data.length := by
    unfold openDedupCommit
    rw [if_neg h]
    rw [set_data_data_length]
    unfold dedup_preview dedup_rows
    cases keep_last with
    | false =>
      simpa using seenCount_keepFirst columns m.data []
    | true =>
      simp only [if_pos, List.length_reverse, ← List.map_reverse]
      simpa using seenCount_keepFirst columns m.data.reverse []
  exact ⟨hmain, by omega⟩

/-- Witness for claim C7 on a concrete 3-row table with one duplicate. -/
theorem claim7_witness :
    ([0] : List Nat) ≠ []
    ∧ dedup_preview (set_data emptyModel [["a".data], ["b".data], ["a".data]] none).data
          [0] false
        + (openDedupCommit (set_data emptyModel [["a".data], ["b".data], ["a".data]] none)
            [0] false).data.length
        = (set_data emptyModel [["a".data], ["b".data], ["a".data]] none).data.length :=
  ⟨by decide,
   (claim7_preview_eq_removed
      (set_data emptyModel [["a".data], ["b".data], ["a".data]] none) [0] false
      (by decide)).1⟩

/-- Counterexample to claim C7 as stated for *every* key-column set: with
the empty key-column set on a 2-row table of equal rows, the preview
reports 1 row to remove, but the commit path returns before mutating
anything (`if not columns: return`), removing 0 rows. -/
theorem claim7_counterexample :
    dedup_preview (set_data emptyModel [["a".data], ["a".data]] none).data [] false = 1
    ∧ openDedupCommit (set_data emptyModel [["a".data], ["a".data]] none) [] false
        = set_data emptyModel [["a".data], ["a".data]] none := by
  decide

/-! ## Grouping theorems (claim C8) -/

/-- Keep-first scan of a list: the distinct elements in first-seen
order (specification-level description of Python dict insertion order). -/
def firstSeenGo [DecidableEq α] : List α → List α → List α
  | _, [] => []
  | seen, x :: xs =>
    if x ∈ seen then firstSeenGo seen xs
    else x :: firstSeenGo (x :: seen) xs

/-- The distinct elements of `l` in first-seen order. -/
def firstSeen [DecidableEq α] (l : List α) : List α :=
  firstSeenGo [] l

theorem mem_firstSeenGo [DecidableEq α] (x : α) :
    ∀ (l seen : List α), x ∈ firstSeenGo seen l ↔ x ∈ l ∧ x ∉ seen := by
  intro l
  induction l with
  | nil => intro seen; simp [firstSeenGo]
  | cons y ys ih =>
    intro seen
    unfold firstSeenGo
    by_cases hy : y ∈ seen
    · rw [if_pos hy, ih]
      simp only [List.mem_cons]
      constructor
      · tauto
      · rintro ⟨rfl | h1, h2⟩
        · exact absurd hy h2
        · exact ⟨h1, h2⟩
    · rw [if_neg hy]
      simp only [List.mem_cons, ih, List.mem_cons]
      by_cases hxy : x = y
      · subst hxy
        tauto
      · tauto

theorem nodup_firstSeenGo [DecidableEq α] :
    ∀ (l seen : List α), (firstSeenGo seen l).Nodup := by
  intro l
  induction l with
  | nil => intro seen; simp [firstSeenGo]
  | cons y ys ih =>
    intro seen
    unfold firstSeenGo
    by_cases hy : y ∈ seen
    · rw [if_pos hy]; exact ih seen
    · rw [if_neg hy]
      refine List.nodup_cons.mpr ⟨?_, ih (y :: seen)⟩
      intro hmem
      exact ((mem_firstSeenGo y ys (y :: seen)).mp hmem).2 (List.mem_cons_self y seen)

theorem firstSeenGo_append_singleton [DecidableEq α] (k : α) :
    ∀ (ks seen : List α),
      firstSeenGo seen (ks ++ [k])
        = firstSeenGo seen ks ++ (if k ∈ seen ∨ k ∈ ks then [] else [k]) := by
  intro ks
  induction ks with
  | nil =>
    intro seen
    simp only [List.nil_append, firstSeenGo]
    by_cases hk : k ∈ seen
    · simp [firstSeenGo, hk]
    · simp [firstSeenGo, hk]
  | cons x ks' ih =>
    intro seen
    simp only [List.cons_append]
    unfold firstSeenGo
    by_cases hx : x ∈ seen
    · rw [if_pos hx, if_pos hx, ih seen]
      have hiff : (k ∈ seen ∨ k ∈ ks') ↔ (k ∈ seen ∨ k ∈ x :: ks') := by
        simp only [List.mem_cons]
        constructor
        · rintro (h | h)
          · exact Or.inl h
          · exact Or.inr (Or.inr h)
        · rintro (h | rfl | h)
          · exact Or.inl h
          · exact Or.inl hx
          · exact Or.inr h
      rw [if_congr hiff rfl rfl]
    · rw [if_neg hx, if_neg hx, ih (x :: seen), List.cons_append]
      have hiff : (k ∈ x :: seen ∨ k ∈ ks') ↔ (k ∈ seen ∨ k ∈ x :: ks') := by
        simp only [List.mem_cons]
        tauto
      rw [if_congr hiff rfl rfl]

theorem counterAdd_of_mem (f : List Cell → Nat) (k : List Cell) :
    ∀ (ds : List (List Cell)), ds.Nodup → k ∈ ds →
      counterAdd (ds.map fun d => (d, f d)) k
        = ds.map fun d => (d, if d = k then f d + 1 else f d) := by
  intro ds
  induction ds with
  | nil => intro _ hk; exact absurd hk (List.not_mem_nil k)
  | cons d ds' ih =>
    intro hnd hk
    simp only [List.map_cons, counterAdd]
    by_cases hd : d = k
    · rw [if_pos hd, hd]
      have hknot : k ∉ ds' := hd ▸ (List.nodup_cons.mp hnd).1
      have hmap : ds'.map (fun d' => (d', if d' = k then f d' + 1 else f d'))
          = ds'.map fun d' => (d', f d') := by
        apply List.map_congr_left
        intro d' hd'
        have hne : ¬ (d' = k) := fun he => hknot (he ▸ hd')
        rw [if_neg hne]
      rw [hmap, if_pos rfl]
    · rw [if_neg hd, if_neg hd]
      have hk' : k ∈ ds' := by
        rcases List.mem_cons.mp hk with h | h
        · exact absurd h.symm hd
        · exact h
      rw [ih (List.nodup_cons.mp hnd).2 hk']

theorem counterAdd_of_not_mem (f : List Cell → Nat) (k : List Cell) :
    ∀ (ds : List (List Cell)), k ∉ ds →
      counterAdd (ds.map fun d => (d, f d)) k = (ds.map fun d => (d, f d)) ++ [(k, 1)] := by
  intro ds
  induction ds with
  | nil => intro _; rfl
  | cons d ds' ih =>
    intro hk
    simp only [List.map_cons, counterAdd, List.cons_append]
    have hdk : ¬ (d = k) := fun he => hk (List.mem_cons.mpr (Or.inl he.symm))
    rw [if_neg hdk, ih fun h => hk (List.mem_cons_of_mem _ h)]

theorem foldl_counterAdd (keys : List (List Cell)) :
    keys.foldl counterAdd [] = (firstSeen keys).map fun k => (k, keys.count k) := by
  induction keys using List.reverseRecOn with
  | nil => rfl
  | append_singleton ks k ih =>
    rw [List.foldl_append, List.foldl_cons, List.foldl_nil, ih]
    unfold firstSeen
    rw [firstSeenGo_append_singleton]
    simp only [List.mem_nil_iff, false_or]
    by_cases hk : k ∈ ks
    · rw [if_pos hk, List.append_nil]
      have hkfs : k ∈ firstSeenGo [] ks :=
        (mem_firstSeenGo k ks []).mpr ⟨hk, List.not_mem_nil k⟩
      rw [counterAdd_of_mem (fun d => ks.count d) k _ (nodup_firstSeenGo ks []) hkfs]
      apply List.map_congr_left
      intro d _
      by_cases hd : d = k
      · rw [if_pos hd, hd, List.count_append]
        simp
      · rw [if_neg hd, List.count_append]
        simp [List.count_cons, hd]
    · rw [if_neg hk]
      have hkfs : k ∉ firstSeenGo [] ks := fun hmem =>
        hk ((mem_firstSeenGo k ks []).mp hmem).1
      rw [counterAdd_of_not_mem (fun d => ks.count d) k _ hkfs, List.map_append]
      congr 1
      · apply List.map_congr_left
        intro d hd
        have hdk : d ≠ k := fun he =>
          hk (he ▸ ((mem_firstSeenGo d ks []).mp hd).1)
        rw [List.count_append]
        simp [List.count_cons, hdk]
      · simp only [List.map_cons, List.map_nil, List.count_append]
        rw [List.count_eq_zero_of_not_mem hk]
        simp

/-- Claim C8: for every table and non-empty key-column set, grouping
produces exactly one output row per distinct key tuple — the key values
followed by the occurrence count — in first-seen order of the key tuples;
in particular `[["b"],["a"],["b"]]` grouped on column 0 yields
`[["b","2"],["a","1"]]`. -/
theorem claim8_grouping (data : List Row) (columns : List Nat) (h : columns ≠ []) :
    applyGrouping data columns = some
      ((firstSeen (data.map (dedupKey columns))).map fun k =>
        k ++ [natToChars ((data.map (dedupKey columns)).count k)])
    ∧ applyGrouping [["b".data], ["a".data], ["b".data]] [0]
        = some [["b".data, "2".data], ["a".data, "1".data]] := by
  constructor
  · unfold applyGrouping groupRows
    rw [if_neg h]
    rw [← List.foldl_map (dedupKey columns) counterAdd]
    rw [foldl_counterAdd, List.map_map]
    rfl
  · decide

/-- Witness for claim C8 at the spec's concrete example. -/
theorem claim8_witness :
    ([0] : List Nat) ≠ []
    ∧ applyGrouping [["b".data], ["a".data], ["b".data]] [0]
        = some [["b".data, "2".data], ["a".data, "1".data]] :=
  ⟨by decide, (claim8_grouping [] [0] (by decide)).2⟩

/-! ## Row-removal theorems (claim C2) -/

/-- Positional removal specification: keep exactly the elements whose
position (counted from `n`) is not listed in `bad`, preserving order. -/
def keepWithout (bad : List Nat) : Nat → List α → List α
  | _, [] => []
  | n, x :: xs =>
    if n ∈ bad then keepWithout bad (n + 1) xs
    else x :: keepWithout bad (n + 1) xs

theorem keepWithout_all_small {bad : List Nat} :
    ∀ (l : List α) (n : Nat), (∀ j ∈ bad, j < n) → keepWithout bad n l = l := by
  intro l
  induction l with
  | nil => intro n _; rfl
  | cons x xs ih =>
    intro n h
    unfold keepWithout
    rw [if_neg fun hn => Nat.lt_irrefl n (h n hn),
      ih (n + 1) fun j hj => Nat.lt_succ_of_lt (h j hj)]

theorem keepWithout_congr {bad₁ bad₂ : List Nat} (h : ∀ j, j ∈ bad₁ ↔ j ∈ bad₂) :
    ∀ (l : List α) (n : Nat), keepWithout bad₁ n l = keepWithout bad₂ n l := by
  intro l
  induction l with
  | nil => intro n; rfl
  | cons x xs ih =>
    intro n
    unfold keepWithout
    by_cases hn : n ∈ bad₁
    · rw [if_pos hn, if_pos ((h n).mp hn), ih]
    · rw [if_neg hn, if_neg (fun hn2 => hn ((h n).mpr hn2)), ih]

theorem keepWithout_eraseIdx :
    ∀ (l : List α) (i n : Nat) (bad : List Nat), i < l.length → (∀ j ∈ bad, j < n + i) →
      keepWithout bad n (l.eraseIdx i) = keepWithout (bad ++ [n + i]) n l := by
  intro l
  induction l with
  | nil => intro i n bad hi _; exact absurd hi (by simp)
  | cons x xs ih =>
    intro i n bad hi hbad
    cases i with
    | zero =>
      simp only [List.eraseIdx_cons_zero, Nat.add_zero] at *
      rw [keepWithout_all_small xs n hbad]
      unfold keepWithout
      rw [if_pos (List.mem_append.mpr (Or.inr (List.mem_singleton.mpr rfl)))]
      rw [keepWithout_all_small xs (n + 1)
        fun j hj => by
          rcases List.mem_append.mp hj with h | h
          · exact Nat.lt_succ_of_lt (hbad j h)
          · rw [List.mem_singleton.mp h]; exact Nat.lt_succ_self n]
    | succ i' =>
      simp only [List.eraseIdx_cons_succ]
      unfold keepWithout
      have hne : n ≠ n + (i' + 1) := by omega
      have hcond : n ∈ bad ++ [n + (i' + 1)] ↔ n ∈ bad := by
        simp only [List.mem_append, List.mem_singleton]
        exact ⟨fun h => h.resolve_right hne, Or.inl⟩
      have hrec : keepWithout bad (n + 1) (xs.eraseIdx i')
          = keepWithout (bad ++ [n + (i' + 1)]) (n + 1) xs := by
        have hi' : i' < xs.length := by simpa using Nat.lt_of_succ_lt_succ hi
        have harith : n + 1 + i' = n + (i' + 1) := by omega
        rw [ih i' (n + 1) bad hi' (fun j hj => by have := hbad j hj; omega), harith]
      by_cases hn : n ∈ bad
      · rw [if_pos hn, if_pos (hcond.mpr hn), hrec]
      · rw [if_neg hn, if_neg (fun h => hn (hcond.mp h)), hrec]

theorem remove_rows_data :
    ∀ (rows : List Nat) (m : TextTableModel),
      (remove_rows m rows).data
        = rows.foldl (fun l r => if r < l.length then l.eraseIdx r else l) m.data := by
  intro rows
  induction rows with
  | nil => intro m; rfl
  | cons r rest ih =>
    intro m
    unfold remove_rows at *
    rw [List.foldl_cons, List.foldl_cons, ih]
    by_cases hr : r < m.data.length
    · rw [if_pos hr, if_pos hr]
    · rw [if_neg hr, if_neg hr]

theorem listRemove_desc :
    ∀ (idxs : List Nat) (l : List α), List.Sorted (· > ·) idxs →
      (∀ i ∈ idxs, i < l.length) →
      idxs.foldl (fun acc r => if r < acc.length then acc.eraseIdx r else acc) l
        = keepWithout idxs 0 l := by
  intro idxs
  induction idxs with
  | nil =>
    intro l _ _
    rw [List.foldl_nil, keepWithout_all_small l 0 (by simp)]
  | cons i rest ih =>
    intro l hsorted hrange
    have hi : i < l.length := hrange i (List.mem_cons_self i rest)
    have hrest := (List.sorted_cons.mp hsorted).1
    rw [List.foldl_cons, if_pos hi]
    rw [ih (l.eraseIdx i) (List.sorted_cons.mp hsorted).2
      fun j hj => by
        have hji : j < i := hrest j hj
        rw [List.length_eraseIdx_of_lt hi]
        omega]
    rw [keepWithout_eraseIdx l i 0 rest hi (fun j hj => by simpa using hrest j hj)]
    rw [Nat.zero_add]
    exact keepWithout_congr (fun j => by simp [Or.comm]) l 0

/-- Claim C2 (amended): `remove_rows` removes exactly the rows at the
given positions when the index list is supplied in strictly descending
order with all indices in range — the discipline every caller in the
program follows by passing `sorted(…, reverse=True)`.  Supplied in another
order, the deletions shift later positions and a different row set is
removed (see the counterexample), so the order does matter. -/
theorem claim2_remove_rows_desc (m : TextTableModel) (idxs : List Nat)
    (hsorted : List.Sorted (· > ·) idxs) (hrange : ∀ i ∈ idxs, i < m.data.length) :
    (remove_rows m idxs).data = keepWithout idxs 0 m.data := by
  rw [remove_rows_data, listRemove_desc idxs m.data hsorted hrange]

/-- Witness for claim C2: removing `[2, 0]` (descending) from a 3-row
table keeps exactly the middle row. -/
theorem claim2_witness :
    List.Sorted (· > ·) [2, 0]
    ∧ (∀ i ∈ [2, 0],
        i < (set_data emptyModel [["a".data], ["b".data], ["c".data]] none).data.length)
    ∧ (remove_rows (set_data emptyModel [["a".data], ["b".data], ["c".data]] none)
        [2, 0]).data
      = keepWithout [2, 0] 0
          (set_data emptyModel [["a".data], ["b".data], ["c".data]] none).data :=
  ⟨by decide, by decide,
   claim2_remove_rows_desc (set_data emptyModel [["a".data], ["b".data], ["c".data]] none)
     [2, 0] (by decide) (by decide)⟩

/-- Counterexample to claim C2 as stated: removing indices `[0, 2]` from
a 3-row table removes only the first row (after deleting index 0 the list
has 2 rows, so index 2 is skipped), while the same indices supplied as
`[2, 0]` remove the first and third rows — the result depends on the
order the indices are supplied in. -/
theorem claim2_counterexample :
    (remove_rows (set_data emptyModel [["a".data], ["b".data], ["c".data]] none)
        [0, 2]).data = [["b".data], ["c".data]]
    ∧ (remove_rows (set_data emptyModel [["a".data], ["b".data], ["c".data]] none)
        [2, 0]).data = [["b".data]] := by
  decide

/-! ## Parser theorems (claim C5) -/

theorem consHead_ne_nil (c : Char) (l : List (List Char)) : consHead c l ≠ [] := by
  cases l <;> simp [consHead]

theorem pySplitGo_ne_nil (sep : List Char) :
    ∀ (fuel : Nat) (s : List Char), pySplitGo sep fuel s ≠ [] := by
  intro fuel
  induction fuel with
  | zero => intro s; simp [pySplitGo]
  | succ f ih =>
    intro s
    unfold pySplitGo
    split
    · simp
    · match s with
      | [] => simp
      | c :: rest => exact consHead_ne_nil c _

theorem pySplit_ne_nil (s sep : List Char) : pySplit s sep ≠ [] :=
  pySplitGo_ne_nil sep (s.length + 1) s

theorem le_foldl_max : ∀ (l : List Nat) (a : Nat), a ≤ l.foldl max a := by
  intro l
  induction l with
  | nil => intro a; exact Nat.le_refl a
  | cons x xs ih =>
    intro a
    exact Nat.le_trans (Nat.le_max_left a x) (ih (max a x))

theorem mem_le_foldl_max : ∀ (l : List Nat) (a x : Nat), x ∈ l → x ≤ l.foldl max a := by
  intro l
  induction l with
  | nil => intro a x hx; exact absurd hx (List.not_mem_nil x)
  | cons y ys ih =>
    intro a x hx
    rcases List.mem_cons.mp hx with rfl | hx
    · exact Nat.le_trans (Nat.le_max_right a x) (le_foldl_max ys (max a x))
    · exact ih (max a y) x hx

theorem foldl_max_length (rows : List (List α)) :
    rows.foldl (fun m r => max m r.length) 0 = (rows.map List.length).foldl max 0 :=
  (List.foldl_map List.length max rows 0).symm

theorem filterMap_strip_lines (d : List Char) :
    ∀ (lines : List (List Char)),
      (lines.filterMap fun raw_line =>
          if pyStrip raw_line = [] then none
          else some ((pySplit (pyStrip raw_line) d).map pyStrip))
        = (lines.filter fun l => !(pyStrip l).isEmpty).map
            fun l => (pySplit (pyStrip l) d).map pyStrip := by
  intro lines
  induction lines with
  | nil => rfl
  | cons x xs ih =>
    by_cases hx : pyStrip x = []
    · rw [List.filterMap_cons_none (by simp [hx]),
        List.filter_cons_of_neg (by simp [hx]), ih]
    · have hempty : (pyStrip x).isEmpty = false := by
        rcases h : pyStrip x with _ | _
        · exact absurd h hx
        · rfl
      simp only [List.filterMap_cons, List.filter_cons, if_neg hx, hempty, Bool.not_false,
        if_pos trivial, List.map_cons]
      rw [ih]

/-- Claim C5: for every input text and non-empty delimiter, `parse_text`
produces exactly one row per line that is non-blank after trimming (blank
lines are dropped), every output row has length equal to the maximum
field count across the surviving lines, and when every line is blank the
result is the empty table.  (Python's `str.split` raises on an empty
delimiter, so the empty delimiter is outside the function's domain.) -/
theorem claim5_parse (text : List Char) (d : List Char) (_hd : d ≠ []) :
    (parse_text text d).length
        = ((pySplitlines text).filter fun l => !(pyStrip l).isEmpty).length
    ∧ (∀ r ∈ parse_text text d,
        r.length = (((pySplitlines text).filter fun l => !(pyStrip l).isEmpty).map
          fun l => (pySplit (pyStrip l) d).length).foldl max 0)
    ∧ ((∀ l ∈ pySplitlines text, pyStrip l = []) → parse_text text d = []) := by
  have hrows := filterMap_strip_lines d (pySplitlines text)
  simp only [parse_text, hrows]
  set F := (pySplitlines text).filter fun l => !(pyStrip l).isEmpty with hF
  set rows := F.map fun l => (pySplit (pyStrip l) d).map pyStrip with hrowsdef
  have hlen_map : rows.map List.length = F.map fun l => (pySplit (pyStrip l) d).length := by
    rw [hrowsdef, List.map_map]
    apply List.map_congr_left
    intro l _
    simp
  have hmax_eq : rows.foldl (fun m r => max m r.length) 0
      = (F.map fun l => (pySplit (pyStrip l) d).length).foldl max 0 := by
    rw [foldl_max_length, hlen_map]
  refine ⟨?_, ?_, ?_⟩
  · split
    · rename_i hmax
      rcases hrows0 : rows with _ | ⟨r, rest⟩
      · rw [hrowsdef] at hrows0
        rw [List.map_eq_nil_iff.mp hrows0]
        rfl
      · exfalso
        have hr1 : 1 ≤ r.length := by
          rw [hrowsdef] at hrows0
          rcases F with _ | ⟨l0, F'⟩
          · simp at hrows0
          · simp only [List.map_cons, List.cons.injEq] at hrows0
            have := pySplit_ne_nil (pyStrip l0) d
            rcases hrows0 with ⟨hr, _⟩
            rw [← hr]
            simp only [List.length_map]
            exact List.length_pos.mpr this
        have hle : r.length ≤ rows.foldl (fun m r => max m r.length) 0 := by
          rw [foldl_max_length]
          exact mem_le_foldl_max _ 0 _ (List.mem_map_of_mem List.length (by rw [hrows0]; exact List.mem_cons_self r rest))
        omega
    · simp only [List.length_map]
      rw [hrowsdef]
      simp
  · intro r hr
    rw [← hmax_eq]
    split at hr
    · exact absurd hr (List.not_mem_nil r)
    · rename_i hmax
      rcases List.mem_map.mp hr with ⟨row, hrow, rfl⟩
      have hle : row.length ≤ rows.foldl (fun m r => max m r.length) 0 := by
        rw [foldl_max_length]
        exact mem_le_foldl_max _ 0 _ (List.mem_map_of_mem List.length hrow)
      simp only [List.length_append, List.length_replicate]
      omega
  · intro hblank
    have hFnil : F = [] := by
      rw [hF]
      apply List.filter_eq_nil_iff.mpr
      intro l hl
      rw [hblank l hl]
      simp
    rw [hrowsdef, hFnil]
    rfl

/-- Witness for claim C5 at a concrete text with a blank line and a short
row. -/
theorem claim5_witness :
    ("----".data : List Char) ≠ []
    ∧ (parse_text "a----b\n \nc".data "----".data).length
        = ((pySplitlines "a----b\n \nc".data).filter fun l => !(pyStrip l).isEmpty).length :=
  ⟨by decide, (claim5_parse "a----b\n \nc".data "----".data (by decide)).1⟩

/-! ## Row-identifier theorems (claim C1) -/

theorem insertLt_perm (lt : α → α → Bool) (x : α) :
    ∀ l : List α, List.Perm (insertLt lt x l) (x :: l) := by
  intro l
  induction l with
  | nil => exact List.Perm.refl _
  | cons y ys ih =>
    unfold insertLt
    split
    · exact List.Perm.refl _
    · exact (ih.cons y).trans (List.Perm.swap x y ys)

theorem pySortBy_foldl_perm (lt : α → α → Bool) :
    ∀ (l acc : List α), List.Perm (l.foldl (fun a x => insertLt lt x a) acc) (acc ++ l) := by
  intro l
  induction l with
  | nil => intro acc; rw [List.append_nil]; exact List.Perm.refl _
  | cons x xs ih =>
    intro acc
    rw [List.foldl_cons]
    exact ((ih (insertLt lt x acc)).trans
      (((insertLt_perm lt x acc).append_right xs).trans List.perm_middle.symm))

theorem pySortBy_perm (lt : α → α → Bool) (l : List α) :
    List.Perm (pySortBy lt l) l :=
  pySortBy_foldl_perm lt l []

theorem zip_map_fst_snd_eq : ∀ l : List (α × β), (l.map Prod.fst).zip (l.map Prod.snd) = l := by
  intro l
  induction l with
  | nil => rfl
  | cons p ps ih => simp [ih]

theorem insert_columns_row_ids (m : TextTableModel) (i : Nat) (hs : List Cell)
    (cd : List (List Cell)) : (insert_columns m i hs cd).row_ids = m.row_ids := by
  unfold insert_columns
  split <;> rfl

theorem set_data_row_ids (m : TextTableModel) (data : List Row) (hs : Option (List Cell)) :
    (set_data m data hs).row_ids = (List.range (set_data m data hs).data.length).map (· + 1) :=
  rfl

/-- Claim C1 (amended): the model-level column operations — reorder,
column delete, column insert, split, merge, rename — leave the row
identifier list untouched, and sorting permutes the `(identifier, row)`
pairs, so each row keeps its identifier across those operations (filtering
lives entirely in the proxy and never mutates the store).  However
`set_data` always resets the identifiers to `1..N`, and the
application-level split operation and the dedup commit rebuild the table
through `set_data`, so they also reset the identifiers rather than
preserving them. -/
theorem claim1_identifier_lifecycle :
    (∀ (m : TextTableModel) (order : List Nat),
      (reorder_columns m order).row_ids = m.row_ids)
    ∧ (∀ (m : TextTableModel) (cols : List Nat),
      (remove_columns m cols).row_ids = m.row_ids)
    ∧ (∀ (m : TextTableModel) (i : Nat) (hs : List Cell) (cd : List (List Cell)),
      (insert_columns m i hs cd).row_ids = m.row_ids)
    ∧ (∀ (m : TextTableModel) (c : Nat) (dl : List Char) (k : Bool),
      (split_column m c dl k).row_ids = m.row_ids)
    ∧ (∀ (m : TextTableModel) (cs : List Nat) (dl : List Char) (k : Bool),
      (merge_columns m cs dl k).row_ids = m.row_ids)
    ∧ (∀ (m : TextTableModel) (c : Nat) (n : Cell),
      (rename_column m c n).row_ids = m.row_ids)
    ∧ (∀ (m : TextTableModel) (col : Nat) (rev : Bool),
      List.Perm ((sortModel m col rev).row_ids.zip (sortModel m col rev).data)
        (m.row_ids.zip m.data))
    ∧ (∀ (m : TextTableModel) (data : List Row) (hs : Option (List Cell)),
      (set_data m data hs).row_ids
        = (List.range (set_data m data hs).data.length).map (· + 1))
    ∧ (∀ (m : TextTableModel) (scope cols : List Nat) (dl : List Char) (k : Bool),
      (applySplitOperation m scope cols dl k).row_ids
        = (List.range (applySplitOperation m scope cols dl k).data.length).map (· + 1))
    ∧ (∀ (m : TextTableModel) (cols : List Nat) (kl : Bool), cols ≠ [] →
      (openDedupCommit m cols kl).row_ids
        = (List.range (openDedupCommit m cols kl).data.length).map (· + 1)) := by
  refine ⟨?_, ?_, ?_, ?_, ?_, ?_, ?_, ?_, ?_, ?_⟩
  · intro m order
    unfold reorder_columns
    split
    · rfl
    · split <;> rfl
  · intro m cols
    unfold remove_columns
    split
    · rfl
    · generalize (pySortNat cols).reverse = cs
      induction cs generalizing m with
      | nil => rfl
      | cons c rest ih =>
        rw [List.foldl_cons]
        split
        · exact ih _
        · exact ih m
  · exact insert_columns_row_ids
  · intro m c dl k
    unfold split_column
    dsimp only
    repeat' split
    all_goals first
      | rfl
      | rw [insert_columns_row_ids]
  · intro m cs dl k
    unfold merge_columns
    dsimp only
    repeat' split
    all_goals rfl
  · intro m c n
    unfold rename_column
    split <;> rfl
  · intro m col rev
    unfold sortModel
    split
    · exact List.Perm.refl _
    · dsimp only
      split
      · rw [zip_map_fst_snd_eq]
        exact pySortBy_perm _ _
      · rw [zip_map_fst_snd_eq]
        exact pySortBy_perm _ _
  · exact set_data_row_ids
  · intro m scope cols dl k
    simp only [applySplitOperation]
    exact set_data_row_ids m _ _
  · intro m cols kl h
    unfold openDedupCommit
    rw [if_neg h]
    exact set_data_row_ids m _ _

/-- Witness for claim C1's dedup-commit conjunct at a concrete input. -/
theorem claim1_witness :
    ([0] : List Nat) ≠ []
    ∧ (openDedupCommit (set_data emptyModel [["a".data], ["a".data]] none) [0] false).row_ids
      = (List.range (openDedupCommit (set_data emptyModel [["a".data], ["a".data]] none)
          [0] false).data.length).map (· + 1) :=
  ⟨by decide,
   claim1_identifier_lifecycle.2.2.2.2.2.2.2.2.2
     (set_data emptyModel [["a".data], ["a".data]] none) [0] false (by decide)⟩

/-- Counterexample to claim C1 as stated: a table whose single surviving
row has identifier 2 (after deleting the first row of a fresh 2-row load)
is put through the application-level split operation (a column edit on a
table whose identifiers are not 1..N); the row survives but its
identifier is reset to 1 instead of being preserved, because
`_apply_split_operation` rebuilds the table via `set_data`. -/
theorem claim1_counterexample :
    (remove_rows (set_data emptyModel [["c".data], ["a--b".data]] none) [0]).row_ids = [2]
    ∧ (applySplitOperation
        (remove_rows (set_data emptyModel [["c".data], ["a--b".data]] none) [0])
        [0] [0] "--".data false).data = [["a".data, "b".data]]
    ∧ (applySplitOperation
        (remove_rows (set_data emptyModel [["c".data], ["a--b".data]] none) [0])
        [0] [0] "--".data false).row_ids = [1] := by
  decide

/-! ## Rectangularity theorems (claim C9) -/

/-- The rectangularity invariant: every row has exactly one cell per
header. -/
abbrev rect (m : TextTableModel) : Prop :=
  ∀ row ∈ m.data, row.length = m.headers.length

/-- The public mutating operations of the table store. -/
inductive TableOp where
  | setDataOp (data : List Row) (headers : Option (List Cell))
  | setHeadersOp (headers : List Cell)
  | renameOp (column : Nat) (name : Cell)
  | reorderOp (order : List Nat)
  | removeRowsOp (rows : List Nat)
  | insertColsOp (index : Nat) (headers : List Cell) (columns_data : List (List Cell))
  | removeColsOp (columns : List Nat)
  | splitOp (column : Nat) (delimiter : List Char) (keep : Bool)
  | mergeOp (columns : List Nat) (delimiter : List Char) (keep : Bool)
  | sortOp (column : Nat) (reverse : Bool)
  | setCellOp (row col : Nat) (value : Cell)

/-- Dispatch of a `TableOp` to the corresponding store operation. -/
def applyOp (m : TextTableModel) : TableOp → TextTableModel
  | .setDataOp data hs => set_data m data hs
  | .setHeadersOp hs => set_headers m hs
  | .renameOp c n => rename_column m c n
  | .reorderOp order => reorder_columns m order
  | .removeRowsOp rows => remove_rows m rows
  | .insertColsOp i hs cd => insert_columns m i hs cd
  | .removeColsOp cols => remove_columns m cols
  | .splitOp c d k => split_column m c d k
  | .mergeOp cs d k => merge_columns m cs d k
  | .sortOp c rev => sortModel m c rev
  | .setCellOp r c v => set_cell m r c v

/-- The width-compatibility side condition under which an operation keeps
the store rectangular: direct header replacement (`set_headers`, and
`set_data` with a non-empty explicit header list) must supply exactly one
name per data column; every other operation needs no condition. -/
def opOk (m : TextTableModel) : TableOp → Prop
  | .setDataOp data (some hs) =>
    hs ≠ [] → ∀ row ∈ (normalize_data data).1, row.length = hs.length
  | .setHeadersOp hs => ∀ row ∈ m.data, row.length = hs.length
  | _ => True

theorem mem_length_le_fold (data : List Row) (row : Row) (h : row ∈ data) :
    row.length ≤ data.foldl (fun m r => max m r.length) 0 := by
  rw [foldl_max_length]
  exact mem_le_foldl_max _ 0 _ (List.mem_map_of_mem List.length h)

theorem normalize_row_length (data : List Row) :
    ∀ row ∈ (normalize_data data).1, row.length = (normalize_data data).2 := by
  intro row hrow
  simp only [normalize_data] at hrow ⊢
  by_cases hmax : data.foldl (fun m r => max m r.length) 0 = 0
  · rw [if_pos hmax] at hrow ⊢
    simp only at hrow ⊢
    have := mem_length_le_fold data row hrow
    omega
  · rw [if_neg hmax] at hrow ⊢
    simp only at hrow ⊢
    rcases List.mem_map.mp hrow with ⟨row0, hrow0, rfl⟩
    have hle := mem_length_le_fold data row0 hrow0
    simp only [List.length_append, List.length_replicate]
    omega

theorem rect_set_data (m : TextTableModel) (data : List Row) (hs : Option (List Cell))
    (hok : ∀ h, hs = some h → h ≠ [] → ∀ row ∈ (normalize_data data).1, row.length = h.length) :
    rect (set_data m data hs) := by
  intro row hrow
  have hrow' : row ∈ (normalize_data data).1 := hrow
  have hlen := normalize_row_length data row hrow'
  show row.length = (set_data m data hs).headers.length
  unfold set_data
  cases hs with
  | none =>
    dsimp only
    by_cases hc : 0 < (normalize_data data).2
    · rw [if_pos hc]
      simpa using hlen
    · rw [if_neg hc]
      simp only [List.length_nil]
      omega
  | some h =>
    dsimp only
    by_cases hh : h = []
    · rw [if_pos hh]
      by_cases hc : 0 < (normalize_data data).2
      · rw [if_pos hc]
        simpa using hlen
      · rw [if_neg hc]
        simp only [List.length_nil]
        omega
    · rw [if_neg hh]
      exact hok h rfl hh row hrow'

theorem rect_set_headers (m : TextTableModel) (hs : List Cell)
    (hok : ∀ row ∈ m.data, row.length = hs.length) : rect (set_headers m hs) :=
  hok

theorem rect_rename (m : TextTableModel) (c : Nat) (n : Cell) (h : rect m) :
    rect (rename_column m c n) := by
  unfold rename_column
  split
  · intro row hrow
    simpa using h row hrow
  · exact h

theorem rect_reorder (m : TextTableModel) (order : List Nat) (h : rect m) :
    rect (reorder_columns m order) := by
  unfold reorder_columns
  split
  · exact h
  · split
    · exact h
    · rename_i hperm
      rw [not_not] at hperm
      intro row hrow
      rcases List.mem_map.mp hrow with ⟨row0, _, rfl⟩
      simp

theorem rect_remove_rows (m : TextTableModel) (rows : List Nat) (h : rect m) :
    rect (remove_rows m rows) := by
  unfold remove_rows
  induction rows generalizing m with
  | nil => exact h
  | cons r rest ih =>
    rw [List.foldl_cons]
    split
    · exact ih _ fun row hrow =>
        h row ((List.eraseIdx_sublist m.data r).subset hrow)
    · exact ih m h

theorem mapIdx_forall_mem {f : Nat → α → β} {P : β → Prop} :
    ∀ {l : List α}, (∀ i a, a ∈ l → P (f i a)) → ∀ b ∈ l.mapIdx f, P b := by
  intro l
  induction l generalizing f with
  | nil => intro _ b hb; exact absurd hb (List.not_mem_nil b)
  | cons a l' ih =>
    intro h b hb
    rw [List.mapIdx_cons] at hb
    rcases List.mem_cons.mp hb with rfl | hb
    · exact h 0 a (List.mem_cons_self a l')
    · exact ih (fun i a' ha' => h (i + 1) a' (List.mem_cons_of_mem _ ha')) b hb

theorem rect_insert_columns (m : TextTableModel) (i : Nat) (hs : List Cell)
    (cd : List (List Cell)) (h : rect m) : rect (insert_columns m i hs cd) := by
  unfold insert_columns
  split
  · exact h
  · intro row hrow
    simp only at hrow
    have hidx : min i m.headers.length ≤ m.headers.length := Nat.min_le_right i _
    refine mapIdx_forall_mem (P := fun r =>
      r.length = (m.headers.take (min i m.headers.length) ++ hs
        ++ m.headers.drop (min i m.headers.length)).length) ?_ row hrow
    intro ri row0 hrow0
    have hr0 := h row0 hrow0
    simp only [List.length_append, List.length_take, List.length_drop, List.length_map,
      List.length_range]
    omega

theorem rect_remove_columns (m : TextTableModel) (cols : List Nat) (h : rect m) :
    rect (remove_columns m cols) := by
  unfold remove_columns
  split
  · exact h
  · generalize (pySortNat cols).reverse = cs
    induction cs generalizing m with
    | nil => exact h
    | cons c rest ih =>
      rw [List.foldl_cons]
      split
      · rename_i hc
        refine ih _ ?_
        intro row hrow
        rcases List.mem_map.mp hrow with ⟨row0, hrow0, rfl⟩
        have hr0 := h row0 hrow0
        rw [List.length_eraseIdx_of_lt (hr0 ▸ hc),
          List.length_eraseIdx_of_lt hc]
        omega
      · exact ih m h

theorem rect_split_column (m : TextTableModel) (c : Nat) (d : List Char) (k : Bool)
    (h : rect m) : rect (split_column m c d k) := by
  unfold split_column
  split
  · rename_i hc
    dsimp only
    split
    · exact h
    · rename_i hmp
      split
      · exact rect_insert_columns m _ _ _ h
      · intro row hrow
        simp only at hrow
        set mp := (m.data.map fun row => pySplit (row.getD c []) d).foldl
          (fun acc p => max acc p.length) 0 with hmpdef
        refine mapIdx_forall_mem (P := fun r =>
          r.length = (m.headers.take c
            ++ (List.range mp).map (fun i =>
                m.headers.getD c [] ++ " 部分 ".data ++ natToChars (i + 1))
            ++ m.headers.drop (c + 1)).length) ?_ row hrow
        intro ri row0 hrow0
        have hr0 := h row0 hrow0
        simp only [List.length_append, List.length_take, List.length_drop, List.length_map,
          List.length_set, List.length_range]
        have hc1 : c + 1 ≤ row0.length := by omega
        omega
  · exact h

theorem foldl_eraseIdx_length_eq :
    ∀ (idxs : List Nat) (l1 : List α) (l2 : List β), l1.length = l2.length →
      (idxs.foldl (fun l c => l.eraseIdx c) l1).length
        = (idxs.foldl (fun l c => l.eraseIdx c) l2).length := by
  intro idxs
  induction idxs with
  | nil => intro l1 l2 h; exact h
  | cons c rest ih =>
    intro l1 l2 h
    rw [List.foldl_cons, List.foldl_cons]
    apply ih
    rw [List.length_eraseIdx, List.length_eraseIdx, h]

theorem rect_merge_columns (m : TextTableModel) (cs : List Nat) (d : List Char) (k : Bool)
    (h : rect m) : rect (merge_columns m cs d k) := by
  unfold merge_columns
  split
  · exact h
  · dsimp only
    split
    · exact h
    · split
      · exact rect_insert_columns m _ _ _ h
      · intro row hrow
        simp only at hrow
        refine mapIdx_forall_mem (P := fun r =>
          r.length = (((pySortNat cs).drop 1).reverse.foldl (fun hs' c => hs'.eraseIdx c)
            (m.headers.set ((pySortNat cs).getD 0 0) "合并".data)).length) ?_ row hrow
        intro ri row0 hrow0
        have hr0 := h row0 hrow0
        apply foldl_eraseIdx_length_eq
        simp only [List.length_set]
        exact hr0

theorem rect_sortModel (m : TextTableModel) (c : Nat) (rev : Bool) (h : rect m) :
    rect (sortModel m c rev) := by
  unfold sortModel
  split
  · exact h
  · dsimp only
    split
    · intro row hrow
      rcases List.mem_map.mp hrow with ⟨pair, hpair, rfl⟩
      have hpair2 : pair ∈ m.row_ids.zip m.data :=
        (pySortBy_perm _ _).subset hpair
      exact h pair.2 (List.of_mem_zip hpair2).2
    · intro row hrow
      rcases List.mem_map.mp hrow with ⟨pair, hpair, rfl⟩
      have hpair2 : pair ∈ m.row_ids.zip m.data :=
        (pySortBy_perm _ _).subset hpair
      exact h pair.2 (List.of_mem_zip hpair2).2

theorem rect_set_cell (m : TextTableModel) (r c : Nat) (v : Cell) (h : rect m) :
    rect (set_cell m r c v) := by
  unfold set_cell
  split
  · rename_i hguard
    intro row hrow
    simp only at hrow
    rcases List.mem_or_eq_of_mem_set hrow with hmem | rfl
    · exact h row hmem
    · rw [List.length_set, List.getD_eq_getElem m.data [] hguard.1]
      exact h _ (List.getElem_mem hguard.1)
  · exact h

/-- Claim C9 (amended): rectangularity — every row's length equals the
header list's length — is established by `set_data` (with synthesized
headers, or with explicit headers of matching width) and preserved by
every other store operation; but `set_headers` (and `set_data` with a
non-empty explicit header list of the wrong width) replaces the headers
without touching the rows, so a width-mismatched call breaks the
invariant rather than the store rectangularizing. -/
theorem claim9_rectangularity (m : TextTableModel) (op : TableOp)
    (hrect : rect m) (hok : opOk m op) : rect (applyOp m op) := by
  cases op with
  | setDataOp data hs =>
    cases hs with
    | none => exact rect_set_data m data none (by simp)
    | some h =>
      refine rect_set_data m data (some h) ?_
      intro h' hh'
      rw [Option.some.injEq] at hh'
      subst hh'
      exact hok
  | setHeadersOp hs => exact rect_set_headers m hs hok
  | renameOp c n => exact rect_rename m c n hrect
  | reorderOp order => exact rect_reorder m order hrect
  | removeRowsOp rows => exact rect_remove_rows m rows hrect
  | insertColsOp i hs cd => exact rect_insert_columns m i hs cd hrect
  | removeColsOp cols => exact rect_remove_columns m cols hrect
  | splitOp c d k => exact rect_split_column m c d k hrect
  | mergeOp cs d k => exact rect_merge_columns m cs d k hrect
  | sortOp c rev => exact rect_sortModel m c rev hrect
  | setCellOp r c v => exact rect_set_cell m r c v hrect

/-- Witness for claim C9: a fresh 1-column load is rectangular, and a
width-matching `set_headers` keeps it so. -/
theorem claim9_witness :
    rect (set_data emptyModel [["x".data]] none)
    ∧ opOk (set_data emptyModel [["x".data]] none) (TableOp.setHeadersOp ["h".data])
    ∧ rect (applyOp (set_data emptyModel [["x".data]] none)
        (TableOp.setHeadersOp ["h".data])) :=
  ⟨by decide,
   by
    show ∀ row ∈ (set_data emptyModel [["x".data]] none).data,
      row.length = (["h".data] : List Cell).length
    decide,
   claim9_rectangularity (set_data emptyModel [["x".data]] none)
     (TableOp.setHeadersOp ["h".data]) (by decide)
     (by
      show ∀ row ∈ (set_data emptyModel [["x".data]] none).data,
        row.length = (["h".data] : List Cell).length
      decide)⟩

/-- Counterexample to claim C9 as stated: `set_headers` with a two-name
list on a rectangular one-column table leaves the single row at length 1
while the header list has length 2 — the store does not rectangularize on
this structural change, breaking the invariant. -/
theorem claim9_counterexample :
    rect (set_data emptyModel [["x".data]] none)
    ∧ ¬ rect (set_headers (set_data emptyModel [["x".data]] none)
        ["a".data, "b".data]) := by
  constructor
  · decide
  · decide

/-! ## Round-trip theorems (claim C6) -/

theorem pySplitGo_succ (sep : List Char) (fuel : Nat) (s : List Char) :
    pySplitGo sep (fuel + 1) s
      = if sep.isPrefixOf s ∧ sep ≠ [] then
          [] :: pySplitGo sep fuel (s.drop sep.length)
        else
          match s with
          | [] => [[]]
          | c :: rest => consHead c (pySplitGo sep fuel rest) := rfl

theorem isPrefixOf_append_self : ∀ (l t : List Char), l.isPrefixOf (l ++ t) = true := by
  intro l t
  induction l with
  | nil => simp [List.isPrefixOf]
  | cons c l' ih => simp [List.isPrefixOf, ih]

theorem not_isPrefixOf_cons_of_not_mem (sep : List Char) (c : Char) (s : List Char)
    (h : c ∉ sep) : ¬ (sep.isPrefixOf (c :: s) ∧ sep ≠ []) := by
  rintro ⟨hpre, hne⟩
  cases sep with
  | nil => exact hne rfl
  | cons s0 sep' =>
    simp only [List.isPrefixOf, Bool.and_eq_true, beq_iff_eq] at hpre
    exact h (hpre.1 ▸ List.mem_cons_self s0 sep')

theorem isPrefixOf_nil_right (sep : List Char) : ¬ (sep.isPrefixOf [] ∧ sep ≠ []) := by
  rintro ⟨hpre, hne⟩
  cases sep with
  | nil => exact hne rfl
  | cons s0 sep' => simp [List.isPrefixOf] at hpre

theorem pySplitGo_congr (sep : List Char) :
    ∀ (f : Nat) (s : List Char) (g : Nat), s.length ≤ f → s.length ≤ g →
      pySplitGo sep f s = pySplitGo sep g s := by
  intro f
  induction f with
  | zero =>
    intro s g hf _
    have hs : s = [] := List.eq_nil_of_length_eq_zero (Nat.le_zero.mp hf)
    subst hs
    cases g with
    | zero => rfl
    | succ g' =>
      rw [pySplitGo_succ, if_neg (isPrefixOf_nil_right sep)]
      rfl
  | succ f' ih =>
    intro s g hf hg
    cases g with
    | zero =>
      have hs : s = [] := List.eq_nil_of_length_eq_zero (Nat.le_zero.mp hg)
      subst hs
      rw [pySplitGo_succ, if_neg (isPrefixOf_nil_right sep)]
      rfl
    | succ g' =>
      rw [pySplitGo_succ, pySplitGo_succ]
      by_cases hcond : sep.isPrefixOf s ∧ sep ≠ []
      · rw [if_pos hcond, if_pos hcond]
        congr 1
        have hsep1 : 1 ≤ sep.length := by
          cases hs : sep with
          | nil => exact absurd hs hcond.2
          | cons a b => simp
        have hlen : (s.drop sep.length).length = s.length - sep.length := by
          simp
        exact ih _ g' (by omega) (by omega)
      · rw [if_neg hcond, if_neg hcond]
        cases s with
        | nil => rfl
        | cons c rest =>
          dsimp only
          simp only [List.length_cons] at hf hg
          rw [ih rest g' (by omega) (by omega)]

/-- Prepend a string onto the first segment of a split result. -/
def prependHead (p : List Char) : List (List Char) → List (List Char)
  | [] => [p]
  | l :: ls => (p ++ l) :: ls

theorem consHead_prependHead (c : Char) (p : List Char) (l : List (List Char)) :
    consHead c (prependHead p l) = prependHead (c :: p) l := by
  cases l <;> rfl

theorem prependHead_nil_of_ne (l : List (List Char)) (h : l ≠ []) :
    prependHead [] l = l := by
  cases l with
  | nil => exact absurd rfl h
  | cons x ls => simp [prependHead]

theorem pySplit_nil_left (sep : List Char) : pySplit [] sep = [[]] := by
  show pySplitGo sep 1 [] = [[]]
  rw [pySplitGo_succ, if_neg (isPrefixOf_nil_right sep)]

theorem pySplit_cons_not_mem (c : Char) (s sep : List Char) (h : c ∉ sep) :
    pySplit (c :: s) sep = consHead c (pySplit s sep) := by
  show pySplitGo sep ((c :: s).length + 1) (c :: s) = _
  rw [pySplitGo_succ, if_neg (not_isPrefixOf_cons_of_not_mem sep c s h)]
  rfl

theorem pySplit_sep_append (t sep : List Char) (hsep : sep ≠ []) :
    pySplit (sep ++ t) sep = [] :: pySplit t sep := by
  show pySplitGo sep ((sep ++ t).length + 1) (sep ++ t) = _
  rw [pySplitGo_succ, if_pos ⟨isPrefixOf_append_self sep t, hsep⟩, List.drop_left]
  congr 1
  exact pySplitGo_congr sep (sep ++ t).length t (t.length + 1) (by simp) (by simp)

theorem pySplit_prepend_cell (cell s sep : List Char) (h : ∀ ch ∈ cell, ch ∉ sep) :
    pySplit (cell ++ s) sep = prependHead cell (pySplit s sep) := by
  induction cell with
  | nil =>
    rw [List.nil_append, prependHead_nil_of_ne _ (pySplit_ne_nil s sep)]
  | cons c cell' ih =>
    rw [List.cons_append,
      pySplit_cons_not_mem c (cell' ++ s) sep (h c (List.mem_cons_self c cell')),
      ih fun ch hch => h ch (List.mem_cons_of_mem c hch),
      consHead_prependHead]

theorem pySplit_pyJoin (sep : List Char) (hsep : sep ≠ []) :
    ∀ (row : List (List Char)), row ≠ [] →
      (∀ cell ∈ row, ∀ ch ∈ cell, ch ∉ sep) →
      pySplit (pyJoin sep row) sep = row := by
  intro row
  induction row with
  | nil => intro h _; exact absurd rfl h
  | cons x rest ih =>
    intro _ hcells
    cases rest with
    | nil =>
      show pySplit x sep = [x]
      have hx : pySplit (x ++ []) sep = prependHead x (pySplit [] sep) :=
        pySplit_prepend_cell x [] sep (hcells x (List.mem_cons_self x []))
      rw [List.append_nil] at hx
      rw [hx, pySplit_nil_left]
      simp [prependHead]
    | cons y rest' =>
      show pySplit (x ++ sep ++ pyJoin sep (y :: rest')) sep = x :: y :: rest'
      rw [List.append_assoc,
        pySplit_prepend_cell x _ sep (hcells x (List.mem_cons_self x _)),
        pySplit_sep_append _ sep hsep,
        ih (by simp) fun cell hcell ch hch =>
          hcells cell (List.mem_cons_of_mem x hcell) ch hch]
      simp [prependHead]

theorem head_some_mem (l : List α) (c : α) (h : l.head? = some c) : c ∈ l := by
  cases l with
  | nil => cases h
  | cons a t =>
    rw [List.head?_cons, Option.some.injEq] at h
    rw [← h]
    exact List.mem_cons_self a t

theorem getLast_some_mem (l : List α) (c : α) (h : l.getLast? = some c) : c ∈ l := by
  rw [← List.head?_reverse] at h
  exact List.mem_reverse.mp (head_some_mem _ _ h)

theorem getLast_append_ne (l₁ l₂ : List α) (h : l₂ ≠ []) :
    (l₁ ++ l₂).getLast? = l₂.getLast? := by
  rw [← List.head?_reverse, ← List.head?_reverse, List.reverse_append]
  cases hr : l₂.reverse with
  | nil => exact absurd (by simpa using hr) h
  | cons b rb => rfl

theorem dropWhile_length_le (p : α → Bool) (l : List α) :
    (l.dropWhile p).length ≤ l.length :=
  (List.dropWhile_sublist p).length_le

theorem pyStrip_eq_self_of (l : List Char)
    (hh : ∀ c, l.head? = some c → pyIsSpace c = false)
    (hl : ∀ c, l.getLast? = some c → pyIsSpace c = false) : pyStrip l = l := by
  unfold pyStrip
  cases l with
  | nil => rfl
  | cons a t =>
    have ha : pyIsSpace a = false := hh a rfl
    rw [List.dropWhile_cons, ha, if_neg Bool.false_ne_true]
    cases hrev : (a :: t).reverse with
    | nil => simp at hrev
    | cons b rb =>
      have hb : pyIsSpace b = false := by
        apply hl
        rw [← List.head?_reverse, hrev, List.head?_cons]
      rw [List.dropWhile_cons, hb, if_neg Bool.false_ne_true, ← hrev,
        List.reverse_reverse]

theorem pyStrip_length_lt_of_head (a : Char) (t : List Char) (ha : pyIsSpace a = true) :
    (pyStrip (a :: t)).length < (a :: t).length := by
  unfold pyStrip
  have h1 : (List.dropWhile pyIsSpace (a :: t)).length ≤ t.length := by
    rw [List.dropWhile_cons, ha, if_pos rfl]
    exact dropWhile_length_le pyIsSpace t
  have h2 : (List.dropWhile pyIsSpace
      (List.dropWhile pyIsSpace (a :: t)).reverse).length
      ≤ (List.dropWhile pyIsSpace (a :: t)).length := by
    have := dropWhile_length_le pyIsSpace (List.dropWhile pyIsSpace (a :: t)).reverse
    simpa using this
  simp only [List.length_reverse]
  simp only [List.length_cons]
  omega

theorem strip_eq_head_not_space (l : List Char) (h : pyStrip l = l) :
    ∀ c, l.head? = some c → pyIsSpace c = false := by
  intro c hc
  cases l with
  | nil => cases hc
  | cons a t =>
    rw [List.head?_cons, Option.some.injEq] at hc
    rw [← hc]
    cases hs : pyIsSpace a with
    | false => rfl
    | true =>
      have := pyStrip_length_lt_of_head a t hs
      rw [h] at this
      omega

theorem strip_eq_last_not_space (l : List Char) (h : pyStrip l = l) :
    ∀ c, l.getLast? = some c → pyIsSpace c = false := by
  intro c hc
  cases l with
  | nil => cases hc
  | cons a t =>
    have ha : pyIsSpace a = false := strip_eq_head_not_space _ h a rfl
    cases hs : pyIsSpace c with
    | false => rfl
    | true =>
      exfalso
      cases hrev : (a :: t).reverse with
      | nil => simp at hrev
      | cons b rb =>
        have hb : b = c := by
          have hh := List.head?_reverse (a :: t)
          rw [hrev, List.head?_cons, hc, Option.some.injEq] at hh
          exact hh
        have hlt : (pyStrip (a :: t)).length < (a :: t).length := by
          unfold pyStrip
          rw [List.dropWhile_cons, ha, if_neg Bool.false_ne_true, hrev,
            List.dropWhile_cons, hb, hs, if_pos rfl]
          have hdw := dropWhile_length_le pyIsSpace rb
          have hlen : (a :: t).length = (b :: rb).length := by
            rw [← hrev, List.length_reverse]
          simp only [List.length_reverse, List.length_cons] at *
          omega
        rw [h] at hlt
        omega

theorem pyJoin_ne_nil (d : List Char) (hd : d ≠ []) :
    ∀ row : List (List Char), (∃ c ∈ row, c ≠ []) → pyJoin d row ≠ [] := by
  intro row
  cases row with
  | nil => rintro ⟨c, hc, _⟩; exact absurd hc (List.not_mem_nil c)
  | cons x rest =>
    cases rest with
    | nil =>
      rintro ⟨c, hc, hne⟩
      rw [List.mem_singleton.mp hc] at hne
      exact hne
    | cons y rest' =>
      intro _
      show x ++ d ++ pyJoin d (y :: rest') ≠ []
      simp [hd]

theorem mem_pyJoin (d : List Char) :
    ∀ (row : List (List Char)) (c : Char), c ∈ pyJoin d row →
      (∃ cell ∈ row, c ∈ cell) ∨ c ∈ d := by
  intro row
  induction row with
  | nil => intro c hc; exact absurd hc (List.not_mem_nil c)
  | cons x rest ih =>
    intro c hc
    cases rest with
    | nil => exact Or.inl ⟨x, List.mem_cons_self x [], hc⟩
    | cons y rest' =>
      have hc' : c ∈ x ++ d ++ pyJoin d (y :: rest') := hc
      rcases List.mem_append.mp hc' with hxd | hj
      · rcases List.mem_append.mp hxd with hx | hdm
        · exact Or.inl ⟨x, List.mem_cons_self x _, hx⟩
        · exact Or.inr hdm
      · rcases ih c hj with ⟨cell, hcell, hcm⟩ | hdm
        · exact Or.inl ⟨cell, List.mem_cons_of_mem x hcell, hcm⟩
        · exact Or.inr hdm

theorem pyJoin_head_not_space (d : List Char) (hd : d ≠ [])
    (hdws : ∀ c ∈ d, pyIsSpace c = false) :
    ∀ row : List (List Char), (∀ cell ∈ row, pyStrip cell = cell) →
      ∀ c, (pyJoin d row).head? = some c → pyIsSpace c = false := by
  intro row
  cases row with
  | nil => intro _ c hc; cases hc
  | cons x rest =>
    intro hcells c hc
    cases rest with
    | nil =>
      exact strip_eq_head_not_space x (hcells x (List.mem_cons_self x [])) c hc
    | cons y rest' =>
      have hc' : (x ++ (d ++ pyJoin d (y :: rest'))).head? = some c := by
        rw [← List.append_assoc]
        exact hc
      cases x with
      | nil =>
        cases hdd : d with
        | nil => exact absurd hdd hd
        | cons s0 sp' =>
          rw [List.nil_append, hdd, List.cons_append, List.head?_cons,
            Option.some.injEq] at hc'
          rw [← hc']
          exact hdws s0 (hdd ▸ List.mem_cons_self s0 sp')
      | cons x0 xt =>
        rw [List.cons_append, List.head?_cons, Option.some.injEq] at hc'
        rw [← hc']
        exact strip_eq_head_not_space _ (hcells (x0 :: xt) (List.mem_cons_self _ _)) x0 rfl

theorem pyJoin_last_not_space (d : List Char) (hd : d ≠ [])
    (hdws : ∀ c ∈ d, pyIsSpace c = false) :
    ∀ row : List (List Char), (∀ cell ∈ row, pyStrip cell = cell) →
      ∀ c, (pyJoin d row).getLast? = some c → pyIsSpace c = false := by
  intro row
  induction row with
  | nil => intro _ c hc; cases hc
  | cons x rest ih =>
    intro hcells c hc
    cases rest with
    | nil =>
      exact strip_eq_last_not_space x (hcells x (List.mem_cons_self x [])) c hc
    | cons y rest' =>
      have hc' : (x ++ d ++ pyJoin d (y :: rest')).getLast? = some c := hc
      by_cases hj : pyJoin d (y :: rest') = []
      · rw [hj, List.append_nil, getLast_append_ne x d hd] at hc'
        exact hdws c (getLast_some_mem d c hc')
      · rw [getLast_append_ne _ _ hj] at hc'
        exact ih (fun cell hcell => hcells cell (List.mem_cons_of_mem x hcell)) c hc'

theorem pySplitlines_cons_other (c : Char) (t : List Char) (h1 : c ≠ '\r')
    (h2 : c ≠ '\n') : pySplitlines (c :: t) = consHead c (pySplitlines t) := by
  rw [pySplitlines.eq_def]
  split
  · simp_all
  · simp_all
  · simp_all
  · simp_all
  · rename_i c' rest heq
    rw [List.cons.injEq] at heq
    rw [heq.1, heq.2]

theorem pySplitlines_no_newline :
    ∀ l : List Char, (∀ c ∈ l, c ≠ '\n' ∧ c ≠ '\r') → l ≠ [] → pySplitlines l = [l] := by
  intro l
  induction l with
  | nil => intro _ h; exact absurd rfl h
  | cons c t ih =>
    intro h _
    have hc := h c (List.mem_cons_self c t)
    rw [pySplitlines_cons_other c t hc.2 hc.1]
    cases ht : t with
    | nil => rfl
    | cons d t' =>
      rw [← ht, ih (fun c' hc' => h c' (List.mem_cons_of_mem c hc')) (by rw [ht]; simp)]
      rfl

theorem pySplitlines_line_append (l1 : List Char)
    (h : ∀ c ∈ l1, c ≠ '\n' ∧ c ≠ '\r') (t : List Char) :
    pySplitlines (l1 ++ '\n' :: t) = l1 :: pySplitlines t := by
  induction l1 with
  | nil => rfl
  | cons c l1' ih =>
    have hc := h c (List.mem_cons_self c l1')
    rw [List.cons_append, pySplitlines_cons_other c _ hc.2 hc.1,
      ih fun c' hc' => h c' (List.mem_cons_of_mem c hc')]
    rfl

theorem pySplitlines_pyJoin :
    ∀ lines : List (List Char),
      (∀ l ∈ lines, l ≠ [] ∧ ∀ c ∈ l, c ≠ '\n' ∧ c ≠ '\r') →
      pySplitlines (pyJoin ['\n'] lines) = lines := by
  intro lines
  induction lines with
  | nil => intro _; rfl
  | cons l rest ih =>
    intro h
    cases rest with
    | nil =>
      exact pySplitlines_no_newline l (h l (List.mem_cons_self l [])).2
        (h l (List.mem_cons_self l [])).1
    | cons l2 rest' =>
      show pySplitlines (l ++ ['\n'] ++ pyJoin ['\n'] (l2 :: rest')) = _
      rw [List.append_assoc, List.singleton_append,
        pySplitlines_line_append l (h l (List.mem_cons_self l _)).2,
        ih fun l' hl' => h l' (List.mem_cons_of_mem l hl')]

theorem foldl_max_all_eq {w : Nat} :
    ∀ (l : List Nat) (a : Nat), (∀ x ∈ l, x = w) → l ≠ [] → l.foldl max a = max a w := by
  intro l
  induction l with
  | nil => intro a _ h; exact absurd rfl h
  | cons x rest ih =>
    intro a h _
    have hx : x = w := h x (List.mem_cons_self x rest)
    rw [List.foldl_cons, hx]
    cases hrest : rest with
    | nil => rfl
    | cons z rest' =>
      rw [← hrest, ih (max a w) (fun x' hx' => h x' (List.mem_cons_of_mem x hx'))
        (by rw [hrest]; simp)]
      omega

/-- Claim C6 (amended): re-parsing a grid's own serialization is the
identity — `parse_text (rows_to_text R d) d = R` — for every rectangular
grid `R` whose every cell is already trimmed and contains neither a
character of the delimiter nor a line break, no row of which consists
entirely of blank cells, and every non-empty delimiter `d` made of
non-whitespace characters.  (Without those restrictions the round trip is
lossy: a cell containing the delimiter is split apart on re-parse, an
untrimmed cell is stripped, a whitespace delimiter is eaten by the line
strip, and a cell holding a line break spawns extra rows.) -/
theorem claim6_roundtrip (R : List (List Cell)) (d : List Char) (w : Nat)
    (hd : d ≠ [])
    (hdws : ∀ c ∈ d, pyIsSpace c = false)
    (hrect : ∀ row ∈ R, row.length = w)
    (hcells : ∀ row ∈ R, ∀ cell ∈ row,
      pyStrip cell = cell ∧ ∀ ch ∈ cell, ch ∉ d ∧ ch ≠ '\n' ∧ ch ≠ '\r')
    (hnb : ∀ row ∈ R, ∃ cell ∈ row, cell ≠ []) :
    parse_text (rows_to_text R d) d = R := by
  by_cases hR : R = []
  · subst hR; rfl
  · have hlines : pySplitlines (rows_to_text R d) = R.map (pyJoin d) := by
      show pySplitlines (pyJoin ['\n'] (R.map (pyJoin d))) = R.map (pyJoin d)
      apply pySplitlines_pyJoin
      intro l hl
      rcases List.mem_map.mp hl with ⟨row, hrow, rfl⟩
      refine ⟨pyJoin_ne_nil d hd row (hnb row hrow), ?_⟩
      intro c hc
      rcases mem_pyJoin d row c hc with ⟨cell, hcell, hcme⟩ | hcd
      · exact ⟨((hcells row hrow cell hcell).2 c hcme).2.1,
          ((hcells row hrow cell hcell).2 c hcme).2.2⟩
      · have hws := hdws c hcd
        exact ⟨fun he => by subst he; revert hws; decide,
          fun he => by subst he; revert hws; decide⟩
    have hstripline : ∀ row ∈ R, pyStrip (pyJoin d row) = pyJoin d row := by
      intro row hrow
      exact pyStrip_eq_self_of _
        (pyJoin_head_not_space d hd hdws row
          fun cell hcell => (hcells row hrow cell hcell).1)
        (pyJoin_last_not_space d hd hdws row
          fun cell hcell => (hcells row hrow cell hcell).1)
    have hrowfn : ∀ row ∈ R, (pySplit (pyStrip (pyJoin d row)) d).map pyStrip = row := by
      intro row hrow
      rw [hstripline row hrow]
      obtain ⟨cell0, hcell0, _⟩ := hnb row hrow
      rw [pySplit_pyJoin d hd row (List.ne_nil_of_mem hcell0)
        fun cell hcell ch hch => ((hcells row hrow cell hcell).2 ch hch).1]
      rw [List.map_congr_left fun cell hcell => (hcells row hrow cell hcell).1]
      exact List.map_id' row
    have hbridge := filterMap_strip_lines d (R.map (pyJoin d))
    simp only [parse_text, hlines, hbridge]
    have hfilter : (R.map (pyJoin d)).filter (fun l => !(pyStrip l).isEmpty)
        = R.map (pyJoin d) := by
      apply List.filter_eq_self.mpr
      intro l hl
      rcases List.mem_map.mp hl with ⟨row, hrow, rfl⟩
      rw [hstripline row hrow]
      have := pyJoin_ne_nil d hd row (hnb row hrow)
      cases hj : pyJoin d row with
      | nil => exact absurd hj this
      | cons a t => rfl
    rw [hfilter, List.map_map]
    have hcomp : ∀ row ∈ R,
        ((fun l => (pySplit (pyStrip l) d).map pyStrip) ∘ pyJoin d) row = row :=
      fun row hrow => hrowfn row hrow
    have hmaprows : R.map ((fun l => (pySplit (pyStrip l) d).map pyStrip) ∘ pyJoin d)
        = R := by
      rw [List.map_congr_left hcomp]
      exact List.map_id R
    rw [hmaprows]
    have hw1 : 1 ≤ w := by
      obtain ⟨row0, hrow0⟩ := List.exists_mem_of_ne_nil R hR
      obtain ⟨cell0, hcell0, _⟩ := hnb row0 hrow0
      have := hrect row0 hrow0
      have hpos : 0 < row0.length := List.length_pos.mpr (List.ne_nil_of_mem hcell0)
      omega
    have hmax : R.foldl (fun m r => max m r.length) 0 = w := by
      rw [foldl_max_length,
        foldl_max_all_eq (R.map List.length) 0
          (fun x hx => by
            rcases List.mem_map.mp hx with ⟨row, hrow, rfl⟩
            exact hrect row hrow)
          (by simpa using hR)]
      omega
    rw [hmax, if_neg (by omega)]
    rw [List.map_congr_left fun row hrow => by
      rw [hrect row hrow, Nat.sub_self, List.replicate_zero, List.append_nil]]
    exact List.map_id R

/-- Witness for claim C6 at a concrete well-behaved grid. -/
theorem claim6_witness :
    ("--".data : List Char) ≠ []
    ∧ (∀ c ∈ "--".data, pyIsSpace c = false)
    ∧ (∀ row ∈ [["ab".data, "c".data]], row.length = 2)
    ∧ (∀ row ∈ [["ab".data, "c".data]], ∀ cell ∈ row,
        pyStrip cell = cell ∧ ∀ ch ∈ cell, ch ∉ "--".data ∧ ch ≠ '\n' ∧ ch ≠ '\r')
    ∧ (∀ row ∈ [["ab".data, "c".data]], ∃ cell ∈ row, cell ≠ [])
    ∧ parse_text (rows_to_text [["ab".data, "c".data]] "--".data) "--".data
        = [["ab".data, "c".data]] :=
  ⟨by decide, by decide, by decide, by decide, by decide,
   claim6_roundtrip [["ab".data, "c".data]] "--".data 2
     (by decide) (by decide) (by decide) (by decide) (by decide)⟩

/-- Counterexample to claim C6 as stated: the rectangular one-row grid
`[["a----b"]]` has no blank-only row, yet serializing with delimiter
`"----"` and re-parsing splits the cell apart, giving `[["a","b"]]`, not
the original grid. -/
theorem claim6_counterexample :
    parse_text (rows_to_text [["a----b".data]] "----".data) "----".data
      ≠ [["a----b".data]] := by
  decide

end TextTable

/-! ## Concrete behavioral checks of the embedding -/

section EmbeddingChecks
open TextTable

example : parse_text "a----b\n\n  \nc".data "----".data
    = [["a".data, "b".data], ["c".data, []]] := by decide

example : parse_text "  \n \n".data "----".data = [] := by decide

example : rows_to_text [["a".data, "b".data], ["c".data, []]] "----".data
    = "a----b\nc----".data := by decide

example : parse_text (rows_to_text [["a----b".data]] "----".data) "----".data
    = [["a".data, "b".data]] := by decide

example : pyStrip "  ab ".data = "ab".data := by decide
example : pySplitlines "a\r\nb\rc\nd\n".data = ["a".data, "b".data, "c".data, "d".data] := by decide
example : pySortNat [3, 1, 2] = [1, 2, 3] := by decide
example : pySortBy lexLt ["10".data, "2".data, "abc".data, "1a".data]
    = ["10".data, "1a".data, "2".data, "abc".data] := by decide
example : pyContains "y-has-x".data "x".data = true := by decide
example : natToChars 12 = ['1', '2'] := by decide

example :
    (TextTable.set_data TextTable.emptyModel [["a".data], ["b".data, "c".data]] none)
      = { headers := ["列 1".data, "列 2".data],
          data := [["a".data, []], ["b".data, "c".data]],
          row_ids := [1, 2] } := by decide

example :
    (TextTable.remove_rows
      (TextTable.set_data TextTable.emptyModel [["a".data], ["b".data]] none) [0]).row_ids
      = [2] := by decide

example :
    (TextTable.sortModel
      (TextTable.set_data TextTable.emptyModel [["b".data], ["a".data]] none) 1 false)
      = { headers := ["列 1".data],
          data := [["a".data], ["b".data]],
          row_ids := [2, 1] } := by decide

example :
    (TextTable.split_column
      (TextTable.set_data TextTable.emptyModel [["a--b".data]] none) 0 "--".data false)
      = { headers := ["列 1 部分 1".data, "列 1 部分 2".data],
          data := [["a".data, "b".data]],
          row_ids := [1] } := by decide

example :
    (TextTable.merge_columns
      (TextTable.set_data TextTable.emptyModel [["a".data, "b".data]] none) [0, 1] "--".data false)
      = { headers := ["合并".data],
          data := [["a--b".data]],
          row_ids := [1] } := by decide

example :
    TextTable.filterAcceptsRow (fun _ _ => false) "x".data
      [⟨some 0, "Not contains".data, "y".data⟩]
      ["y-has-x".data, "zzz".data] = false := by decide

example :
    TextTable.filterAcceptsRow (fun _ _ => false) "x".data []
      ["y-has-x".data, "zzz".data] = true := by decide

example :
    TextTable.dedup_preview [["a".data], ["b".data], ["a".data]] [0] false = 1 := by decide

example :
    TextTable.dedup_rows [["a".data, "1".data], ["a".data, "2".data]] [0] true
      = [["a".data, "2".data]] := by decide

example :
    TextTable.applyGrouping [["b".data], ["a".data], ["b".data]] [0]
      = some [["b".data, "2".data], ["a".data, "1".data]] := by decide

example :
    (TextTable.applySplitOperation
      (TextTable.remove_rows
        (TextTable.set_data TextTable.emptyModel [["a--b".data], ["c".data]] none) [1])
      [0] [0] "--".data false).row_ids = [1] := by decide

example :
    (TextTable.remove_rows
        (TextTable.set_data TextTable.emptyModel [["a--b".data], ["c".data]] none) [1]).row_ids
      = [1] := by decide

example :
    (TextTable.applySplitOperation
      (TextTable.remove_rows
        (TextTable.set_data TextTable.emptyModel [["c".data], ["a--b".data]] none) [0])
      [0] [0] "--".data false)
      = { headers := ["列 1 部分 1".data, "列 1 部分 2".data],
          data := [["a".data, "b".data]],
          row_ids := [1] } := by decide

example : TextTable.specNumericPrefixLess "2".data "10".data = true := by decide
example : TextTable.lessThanDataColumn "10".data "2".data = true := by decide
example :
    TextTable.pySortBy TextTable.specNumericPrefixLess
      ["10".data, "2".data, "abc".data, "1a".data]
      = ["1a".data, "2".data, "10".data, "abc".data] := by decide

end EmbeddingChecks
